import Mathlib

/-!
Verification of the knowledge-agent backend core (NestJS/TypeScript).

This file gives a shallow embedding, in Lean 4, of the parts of the code
relevant to the claims under audit:

* the chunker (src/api/knowledge-indexer/chunking.service.ts:
  ChunkingService.chunkText / findBreakPoint / findStartPoint),
* chunk-id generation (KnowledgeIndexerService.generateChunkId),
* the vector store mutations (VectorStoreService.deleteDocumentChunks /
  upsertChunks) and the per-document delete-then-upsert sequencing of
  KnowledgeIndexerService.processDocument,
* the indexing pipeline loop (KnowledgeIndexerService.runIndexingPipeline),
* the scheduler guard (KnowledgeSchedulerService.runIndexer / onModuleInit)
  and the configuration getter for KNOWLEDGE_INDEXER_ENABLED,
* the knowledge-search tool's permission filter, deduplication and top-K
  selection (KnowledgeSearchTool), and
* the chat controller / service response shape (ChatController.chat).

JavaScript strings are modelled as lists of characters.  Remote services
(Graph, Azure OpenAI, Azure AI Search transport) are modelled as explicit
function parameters or as explicit state (the index is a list of stored
chunks), and thrown exceptions as Except.
-/

namespace KnowledgeAgent

/-! ## JavaScript string primitives (on lists of characters)

These model the handful of string operations the chunker and id generator
use: slice, indexOf/lastIndexOf of a literal, trim, and the two regexes of
the chunker.  Whitespace is modelled by the ASCII whitespace characters
(the inputs in the claims are ASCII). -/

/-- Model of the JS whitespace class for trim and the regex \s
(restricted to the ASCII whitespace characters). -/
def jsIsWs (c : Char) : Bool :=
  c = ' ' || c = '\n' || c = '\t' || c = '\r' || c = '\x0b' || c = '\x0c'

/-- The sentence-ending punctuation class [.!?] of the chunker's regexes. -/
def isSentencePunct (c : Char) : Bool :=
  c = '.' || c = '!' || c = '?'

/-- The [A-Z] class of the chunker's regexes. -/
def isUpperAZ (c : Char) : Bool :=
  'A' ≤ c && c ≤ 'Z'

/-- The character class [a-zA-Z0-9-_] of generateChunkId's sanitization. -/
def isUrlSafeChar (c : Char) : Bool :=
  ('a' ≤ c && c ≤ 'z') || ('A' ≤ c && c ≤ 'Z') || ('0' ≤ c && c ≤ '9') ||
    c = '-' || c = '_'

/-- JS String.prototype.slice(start, end) for 0 ≤ start ≤ end. -/
def jsSlice (l : List Char) (s e : Nat) : List Char :=
  (l.take e).drop s

/-- Whether pat occurs in l starting at position i. -/
def occursAt (pat l : List Char) (i : Nat) : Bool :=
  pat.isPrefixOf (l.drop i)

/-- JS String.prototype.lastIndexOf of a literal pattern: the largest
occurrence position, or none (JS: -1). -/
def lastOcc (pat l : List Char) : Option Nat :=
  (((List.range (l.length + 1)).filter (occursAt pat l))).getLast?

/-- JS String.prototype.indexOf of a literal pattern: the smallest
occurrence position, or none (JS: -1). -/
def firstOcc (pat l : List Char) : Option Nat :=
  (((List.range (l.length + 1)).filter (occursAt pat l))).head?

/-- JS String.prototype.trim. -/
def trimChars (l : List Char) : List Char :=
  ((l.dropWhile jsIsWs).reverse.dropWhile jsIsWs).reverse

/-- Does the list begin with an uppercase A-Z character?  (Used for the
lookahead (?=[A-Z]) and the anchored start regex.) -/
def leadUpper : List Char → Bool
  | u :: _ => isUpperAZ u
  | [] => false

/-- All matches, in order, of the global regex [.!?]\s+(?=[A-Z]) used by
ChunkingService.findBreakPoint (priority 3).  A match is a punctuation
character followed by the maximal nonempty whitespace run, provided the
next character is uppercase (the greedy \s+ must reach the lookahead).
The matched string excludes the lookahead character.  After a match the
scan resumes at the end of the match. -/
def sentenceMatches : List Char → List (List Char)
  | [] => []
  | c :: rest =>
    if isSentencePunct c && decide (0 < (rest.takeWhile jsIsWs).length)
        && leadUpper (rest.drop (rest.takeWhile jsIsWs).length) then
      (c :: rest.takeWhile jsIsWs) ::
        sentenceMatches (rest.drop (rest.takeWhile jsIsWs).length)
    else
      sentenceMatches rest
termination_by l => l.length
decreasing_by
  · simp only [List.length_drop, List.length_cons]
    omega
  · simp only [List.length_cons]
    omega

/-- One match of the anchored regex /^[.!?]\s+[A-Z]/ used by
ChunkingService.findStartPoint: String.search of an anchored pattern
returns 0 exactly when the string starts with the pattern. -/
def startsSentence (l : List Char) : Bool :=
  match l with
  | c :: rest =>
    isSentencePunct c && decide (0 < (rest.takeWhile jsIsWs).length)
      && leadUpper (rest.drop (rest.takeWhile jsIsWs).length)
  | [] => false

namespace ChunkingService

/-- ChunkOptions of chunking.service.ts with its defaults. -/
structure ChunkOptions where
  chunkSize : Nat := 1500
  chunkOverlap : Nat := 200
  minChunkSize : Nat := 100
deriving DecidableEq

/-- TextChunk of chunking.service.ts. -/
structure TextChunk where
  index : Nat
  text : List Char
  startOffset : Nat
  endOffset : Nat
deriving DecidableEq

/-- The start of the break-point search window:
Math.max(start, idealEnd - Math.floor(chunkSize * 0.3)).  For the chunk
sizes that occur (multiples of 10, in particular the default 1500) the
IEEE-double product chunkSize * 0.3 floors to 3 * chunkSize / 10. -/
def breakSearchStart (start idealEnd chunkSize : Nat) : Nat :=
  max start (idealEnd - 3 * chunkSize / 10)

/-- The text of the break-point search window
(text.slice(searchStart, idealEnd)). -/
def breakSearchText (text : List Char) (start idealEnd chunkSize : Nat) :
    List Char :=
  jsSlice text (breakSearchStart start idealEnd chunkSize) idealEnd

/-- ChunkingService.findBreakPoint (chunking.service.ts lines 171-210).
Priorities: paragraph break, line break, sentence end (regex), period +
space, word boundary; fallback: hard cut at idealEnd. -/
def findBreakPoint (text : List Char) (start idealEnd chunkSize : Nat) : Nat :=
  let searchStart := breakSearchStart start idealEnd chunkSize
  let searchText := breakSearchText text start idealEnd chunkSize
  let paragraphBreak :=
    (lastOcc ['\n', '\n'] searchText).map (fun i => searchStart + i + 2)
  let lineBreak :=
    (lastOcc ['\n'] searchText).map (fun i => searchStart + i + 1)
  let sentenceEnd :=
    ((sentenceMatches searchText).getLast?).bind (fun m =>
      (lastOcc m searchText).map (fun i => searchStart + i + m.length))
  let periodSpace :=
    (lastOcc ['.', ' '] searchText).map (fun i => searchStart + i + 2)
  let wordBoundary :=
    (lastOcc [' '] searchText).map (fun i => searchStart + i + 1)
  (((((paragraphBreak).orElse (fun _ => lineBreak)).orElse
      (fun _ => sentenceEnd)).orElse
      (fun _ => periodSpace)).orElse
      (fun _ => wordBoundary)).getD idealEnd

/-- ChunkingService.findStartPoint (chunking.service.ts lines 215-238):
snap the overlap-adjusted start forward to a sentence, paragraph, or line
start where feasible; otherwise keep idealStart. -/
def findStartPoint (text : List Char) (idealStart maxStart : Nat) : Nat :=
  let searchEnd := min maxStart (idealStart + 100)
  let searchText := jsSlice text idealStart searchEnd
  let sentencePart :=
    if startsSentence searchText then some (idealStart + 2) else none
  let paragraphPart :=
    (firstOcc ['\n', '\n'] searchText).bind (fun i =>
      if i < 50 then some (idealStart + i + 2) else none)
  let linePart :=
    (firstOcc ['\n'] searchText).bind (fun i =>
      if i < 30 then some (idealStart + i + 1) else none)
  ((sentencePart.orElse (fun _ => paragraphPart)).orElse
      (fun _ => linePart)).getD idealStart

/-- The cursor update at the end of one chunkText loop iteration
(chunking.service.ts lines 155-160): currentPosition :=
findStartPoint(text, max(endPosition - chunkOverlap, currentPosition + 1),
endPosition). -/
def nextCursor (text : List Char) (cur endPos overlap : Nat) : Nat :=
  findStartPoint text (max (endPos - overlap) (cur + 1)) endPos

/-- The end position of the chunk starting at cur (chunking.service.ts
lines 131-137): the tentative end min(cur + chunkSize, text.length),
refined by findBreakPoint when it lies strictly before the end of the
text. -/
def chunkEnd (text : List Char) (cur chunkSize : Nat) : Nat :=
  let ep0 := min (cur + chunkSize) text.length
  if ep0 < text.length then findBreakPoint text cur ep0 chunkSize else ep0

/-- The while loop of ChunkingService.chunkText (lines 130-161), with an
explicit fuel argument; none signals fuel exhaustion (it never occurs for
fuel ≥ text.length + 1, see chunkLoop_isSome_of_fuel).  Each iteration
computes the end position, emits the trimmed chunk when it is long
enough, stops when the end position reaches the end of the text, and
otherwise continues at the overlap-adjusted next cursor. -/
def chunkLoop (text : List Char) (chunkSize chunkOverlap minChunkSize : Nat) :
    Nat → Nat → Nat → Option (List TextChunk)
  | 0, _, _ => none
  | fuel + 1, cur, idx =>
    if cur < text.length then
      let ep := chunkEnd text cur chunkSize
      let ct := trimChars (jsSlice text cur ep)
      if text.length ≤ ep then
        some (if minChunkSize ≤ ct.length then [⟨idx, ct, cur, ep⟩] else [])
      else
        match chunkLoop text chunkSize chunkOverlap minChunkSize fuel
          (nextCursor text cur ep chunkOverlap)
          (if minChunkSize ≤ ct.length then idx + 1 else idx) with
        | none => none
        | some tl =>
          some (if minChunkSize ≤ ct.length then ⟨idx, ct, cur, ep⟩ :: tl else tl)
    else
      some []

/-- ChunkingService.chunkText (chunking.service.ts lines 109-166).  The
guard !text || text.trim().length < minChunkSize returns a single trimmed
chunk when the text is nonempty with nonempty trim, else no chunks; the
main loop is chunkLoop, whose fuel text.length + 1 always suffices. -/
def chunkText (text : List Char) (options : ChunkOptions) : List TextChunk :=
  if text.isEmpty || (trimChars text).length < options.minChunkSize then
    if !text.isEmpty && 0 < (trimChars text).length then
      [⟨0, trimChars text, 0, text.length⟩]
    else []
  else
    (chunkLoop text options.chunkSize options.chunkOverlap options.minChunkSize
      (text.length + 1) 0 0).getD []

end ChunkingService

/-! ## Decimal rendering of numbers

JS template interpolation of a natural number renders its decimal digits;
natRepr is that rendering (most significant digit first). -/

/-- The decimal digit character for n % 10. -/
def digitChar (n : Nat) : Char :=
  match n with
  | 0 => '0' | 1 => '1' | 2 => '2' | 3 => '3' | 4 => '4'
  | 5 => '5' | 6 => '6' | 7 => '7' | 8 => '8' | _ => '9'

/-- Digit-producing loop with explicit fuel (any fuel above the value
suffices, see natRepr_eq). -/
def natReprAux : Nat → Nat → List Char
  | 0, _ => []
  | fuel + 1, n =>
    if n < 10 then [digitChar n]
    else natReprAux fuel (n / 10) ++ [digitChar (n % 10)]

/-- Decimal rendering of a natural number, as in JS template interpolation
of a (nonnegative integral) number. -/
def natRepr (n : Nat) : List Char := natReprAux (n + 1) n

/-- The value of a decimal digit character. -/
def digitVal (c : Char) : Nat := c.toNat - 48

/-- The number denoted by a digit string (used only to invert natRepr). -/
def digitsVal (l : List Char) : Nat :=
  l.foldl (fun a c => 10 * a + digitVal c) 0

/-- Is c a decimal digit? -/
def isDigitCh (c : Char) : Bool := '0' ≤ c && c ≤ '9'

namespace KnowledgeIndexerService

/-- KnowledgeDocument of knowledge-indexer.service.ts. -/
structure KnowledgeDocument where
  id : String
  title : String
  webUrl : String
  fileType : String
  lastModified : String
  siteUrl : String
  siteName : String
  driveId : Option String
  driveItemId : Option String
deriving DecidableEq

/-- The sanitization in KnowledgeIndexerService.generateChunkId:
documentId.replace(/[^a-zA-Z0-9-_]/g, '_'). -/
def sanitizeDocumentId (documentId : String) : String :=
  ⟨documentId.data.map (fun c => if isUrlSafeChar c then c else '_')⟩

/-- KnowledgeIndexerService.generateChunkId (knowledge-indexer.service.ts
lines 209-213): the template safeDocId_chunk_chunkIndex. -/
def generateChunkId (documentId : String) (chunkIndex : Nat) : String :=
  sanitizeDocumentId documentId ++ "_chunk_" ++ ⟨natRepr chunkIndex⟩

end KnowledgeIndexerService

namespace VectorStoreService

/-- DocumentChunk of vector-store.service.ts.  The chunk text is a list of
characters (document content is manipulated character-wise by the
chunker); the embedding entries are modelled as rationals. -/
structure DocumentChunk where
  id : String
  documentId : String
  driveId : Option String
  webUrl : String
  siteUrl : String
  siteName : String
  documentTitle : String
  fileType : String
  chunkIndex : Nat
  chunkText : List Char
  embedding : List ℚ
  documentModifiedAt : String
  indexedAt : Nat
deriving DecidableEq

/-- The calls deleteDocumentChunks and upsertChunks issue against the
Azure AI Search index, recorded as a trace: the discovery search, a batch
delete by id, and a merge-or-upload batch. -/
inductive VectorOp where
  | search (documentId : String)
  | delete (ids : List String)
  | upsert (ids : List String)
deriving DecidableEq

/-- Is the operation a batch delete? -/
def VectorOp.isDelete : VectorOp → Bool
  | .delete _ => true
  | _ => false

/-- Is the operation a merge-or-upload batch? -/
def VectorOp.isUpsert : VectorOp → Bool
  | .upsert _ => true
  | _ => false

/-- VectorStoreService.deleteDocumentChunks (vector-store.service.ts lines
483-505): discover the ids of chunks whose documentId matches, via a
filtered search with top 1000, and batch-delete them by id; no delete
call when none are found.  The index is modelled as the list of stored
chunks; the search returns at most 1000 ids. -/
def deleteDocumentChunks (index : List DocumentChunk) (documentId : String) :
    List DocumentChunk × List VectorOp :=
  let idsToDelete :=
    ((index.filter (fun c => c.documentId == documentId)).map (·.id)).take 1000
  if idsToDelete.isEmpty then
    (index, [.search documentId])
  else
    (index.filter (fun c => !(idsToDelete.contains c.id)),
      [.search documentId, .delete idsToDelete])

/-- The effect of merge-or-upload of a single document on the index: the
stored document with the same key is replaced in place, otherwise the
document is appended. -/
def upsertOne (index : List DocumentChunk) (c : DocumentChunk) :
    List DocumentChunk :=
  if index.any (fun o => o.id == c.id) then
    index.map (fun o => if o.id == c.id then c else o)
  else
    index ++ [c]

/-- VectorStoreService.upsertChunks (vector-store.service.ts lines
444-478): merge-or-upload all chunks (the source splits them into batches
of at most 1000 merge-or-upload calls issued in order; the final index
state is the fold of upsertOne, and the trace records the upload of the
whole chunk list after any deletes).  Early return on an empty list. -/
def upsertChunks (index : List DocumentChunk) (chunks : List DocumentChunk) :
    List DocumentChunk × List VectorOp :=
  if chunks.isEmpty then (index, [])
  else (chunks.foldl upsertOne index, [.upsert (chunks.map (·.id))])

/-- The storage phase of KnowledgeIndexerService.processDocument
(knowledge-indexer.service.ts lines 197-201): delete the existing chunks
of the document, then upsert the new ones; the trace concatenates the two
call sequences in program order (both calls are awaited in sequence). -/
def processDocumentStore (index : List DocumentChunk) (documentId : String)
    (chunks : List DocumentChunk) : List DocumentChunk × List VectorOp :=
  let del := deleteDocumentChunks index documentId
  let ups := upsertChunks del.1 chunks
  (ups.1, del.2 ++ ups.2)

end VectorStoreService

namespace KnowledgeIndexerService

open VectorStoreService

/-- IndexerResult of knowledge-indexer.service.ts.  durationMs is wall
clock time; the model carries 0 for it. -/
structure IndexerResult where
  documentsFound : Nat
  documentsProcessed : Nat
  chunksCreated : Nat
  errors : List String
  durationMs : Nat
deriving DecidableEq

/-- The construction of the documentChunks array in processDocument
(knowledge-indexer.service.ts lines 181-195): one DocumentChunk per text
chunk, with embeddings[index].  When the embeddings list is shorter than
the chunk list the source dereferences undefined and throws; this is the
error case. -/
def buildDocumentChunks (doc : KnowledgeDocument) (now : Nat) :
    List ChunkingService.TextChunk → List (List ℚ) →
      Except String (List DocumentChunk)
  | [], _ => .ok []
  | _ :: _, [] => .error "Cannot read properties of undefined"
  | tc :: tcs, e :: es =>
    (buildDocumentChunks doc now tcs es).map (fun rest =>
      { id := generateChunkId doc.id tc.index
        documentId := doc.id
        driveId := doc.driveId
        webUrl := doc.webUrl
        siteUrl := doc.siteUrl
        siteName := doc.siteName
        documentTitle := doc.title
        fileType := doc.fileType
        chunkIndex := tc.index
        chunkText := tc.text
        embedding := e
        documentModifiedAt := doc.lastModified
        indexedAt := now } :: rest)

/-- KnowledgeIndexerService.processDocument (knowledge-indexer.service.ts
lines 150-204).  extract models DocumentContentService.extractContent
(a thrown exception is .error); embed models
EmbeddingService.generateEmbeddings (a failed batch aborts the call with
.error).  Returns the number of chunks created together with the new
index state and the trace of vector-store calls. -/
def processDocument
    (extract : KnowledgeDocument → Except String (List Char))
    (embed : List (List Char) → Except String (List (List ℚ)))
    (skipEmbeddings : Bool) (now : Nat)
    (index : List DocumentChunk) (doc : KnowledgeDocument) :
    Except String (Nat × List DocumentChunk × List VectorOp) :=
  match extract doc with
  | .error e => .error e
  | .ok content =>
    if content.length < 50 then .ok (0, index, [])
    else if (ChunkingService.chunkText content {}).isEmpty then .ok (0, index, [])
    else if skipEmbeddings then
      .ok ((ChunkingService.chunkText content {}).length, index, [])
    else
      match embed ((ChunkingService.chunkText content {}).map (·.text)) with
      | .error e => .error e
      | .ok embeddings =>
        match buildDocumentChunks doc now
            (ChunkingService.chunkText content {}) embeddings with
        | .error e => .error e
        | .ok documentChunks =>
          .ok (documentChunks.length,
            (processDocumentStore index doc.id documentChunks).1,
            (processDocumentStore index doc.id documentChunks).2)

/-- One iteration of the document loop in runIndexingPipeline
(knowledge-indexer.service.ts lines 115-130): per-document try/catch,
collecting the error message on failure and counting a processed document
when chunks were created. -/
def pipelineStep
    (extract : KnowledgeDocument → Except String (List Char))
    (embed : List (List Char) → Except String (List (List ℚ)))
    (skipEmbeddings : Bool) (now : Nat)
    (acc : Nat × Nat × List String × List DocumentChunk)
    (doc : KnowledgeDocument) : Nat × Nat × List String × List DocumentChunk :=
  match processDocument extract embed skipEmbeddings now acc.2.2.2 doc with
  | .ok (n, index, _) =>
    if 0 < n then (acc.1 + 1, acc.2.1 + n, acc.2.2.1, index)
    else (acc.1, acc.2.1, acc.2.2.1, index)
  | .error e =>
    (acc.1, acc.2.1,
      acc.2.2.1 ++ ["Failed to process " ++ doc.title ++ ": " ++ e],
      acc.2.2.2)

/-- KnowledgeIndexerService.runIndexingPipeline (knowledge-indexer.service.ts
lines 94-145).  The document discovery (searchKnowledgeDocuments) is a
remote search; its result is the docs parameter.  Returns the
IndexerResult and the final index state. -/
def runIndexingPipeline
    (extract : KnowledgeDocument → Except String (List Char))
    (embed : List (List Char) → Except String (List (List ℚ)))
    (skipEmbeddings : Bool) (now : Nat)
    (docs : List KnowledgeDocument) (index : List DocumentChunk) :
    IndexerResult × List DocumentChunk :=
  if docs.isEmpty then
    ({ documentsFound := 0, documentsProcessed := 0, chunksCreated := 0,
       errors := [], durationMs := 0 }, index)
  else
    let acc := docs.foldl (pipelineStep extract embed skipEmbeddings now)
      (0, 0, [], index)
    ({ documentsFound := docs.length, documentsProcessed := acc.1,
       chunksCreated := acc.2.1, errors := acc.2.2.1, durationMs := 0 },
      acc.2.2.2)

end KnowledgeIndexerService

namespace ConfigurationService

/-- The JS expression x || d for a boolean-or-undefined x: the first
operand is returned when truthy, otherwise the default. -/
def jsOrBool (x : Option Bool) (dflt : Bool) : Bool :=
  match x with
  | some true => true
  | _ => dflt

/-- The KNOWLEDGE_INDEXER_ENABLED configuration getter
(configuration.service.ts lines 24-25):
this.configService.get('KNOWLEDGE_INDEXER_ENABLED') || true. -/
def knowledgeIndexerEnabledConfig (env : Option Bool) : Bool :=
  jsOrBool env true

end ConfigurationService

namespace KnowledgeSchedulerService

open KnowledgeIndexerService

/-- The result runIndexer returns without calling the pipeline when a pass
is already in progress (knowledge-scheduler.service.ts lines 201-210). -/
def alreadyRunningResult : IndexerResult :=
  { documentsFound := 0, documentsProcessed := 0, chunksCreated := 0,
    errors := ["Indexer already running"], durationMs := 0 }

/-- KnowledgeSchedulerService.runIndexer (knowledge-scheduler.service.ts
lines 200-241).  The pipeline outcome (success or a thrown error) is the
pipeline parameter.  Returns the IndexerResult, the value of isRunning
after the call returns, and whether runIndexingPipeline was invoked.
The guard check and the set of isRunning are synchronous (no await
between them), and the finally block resets isRunning on success and on
failure alike. -/
def runIndexer (isRunning : Bool)
    (pipeline : Except String IndexerResult) :
    IndexerResult × Bool × Bool :=
  if isRunning then
    (alreadyRunningResult, isRunning, false)
  else
    match pipeline with
    | .ok r => (r, false, true)
    | .error msg =>
      ({ documentsFound := 0, documentsProcessed := 0, chunksCreated := 0,
         errors := [msg], durationMs := 0 }, false, true)

/-- KnowledgeSchedulerService.onModuleInit (knowledge-scheduler.service.ts
lines 159-187): when the indexer is disabled, log and return; otherwise
run one pass immediately and install the interval timer.  Returns
(ran an immediate pass, scheduled the repeating timer). -/
def onModuleInit (enabled : Bool) : Bool × Bool :=
  if !enabled then (false, false) else (true, true)

/-- Scheduler startup as a function of the raw configuration value:
onModuleInit reads configuration.KNOWLEDGE_INDEXER_ENABLED, which the
configuration getter computes from the environment value. -/
def schedulerStartup (env : Option Bool) : Bool × Bool :=
  onModuleInit (ConfigurationService.knowledgeIndexerEnabledConfig env)

end KnowledgeSchedulerService

namespace KnowledgeSearchTool

open VectorStoreService

/-- VectorSearchResult of vector-store.service.ts: a stored chunk and its
similarity score.  Scores are modelled as rationals: the code only ever
compares scores, and IEEE-double comparison of scores agrees with the
exact order. -/
structure VectorSearchResult where
  chunk : DocumentChunk
  score : ℚ
deriving DecidableEq

/-- The outcome of the permission probe issued by checkDocumentPermission
with the user's delegated Graph client: a clean success, or a failure
carrying the statusCode when the error has one (403, 404, 5xx, ...)
and none for errors without a statusCode (network failure, malformed
response).  The probe is keyed by documentId: all chunks of a document
share the drive item the probe fetches. -/
inductive ProbeOutcome where
  | success
  | failure (statusCode : Option Nat)
deriving DecidableEq

/-- The per-request permission cache (a JS Map in insertion order). -/
abbrev PermissionCache := List (String × Bool)

/-- Map.prototype.get composed with Map.prototype.has. -/
def cacheLookup (cache : PermissionCache) (key : String) : Option Bool :=
  (cache.find? (fun e => e.1 == key)).map (·.2)

/-- KnowledgeSearchTool.checkDocumentPermission (knowledge-search.tool.ts
lines 154-197): answer from the cache when present; otherwise issue the
probe, classify success as accessible and every error (403, 404, or any
other) as not accessible, and memoize the decision. -/
def checkDocumentPermission (cache : PermissionCache)
    (probe : String → ProbeOutcome) (documentId : String) :
    Bool × PermissionCache :=
  match cacheLookup cache documentId with
  | some b => (b, cache)
  | none =>
    match probe documentId with
    | .success => (true, cache ++ [(documentId, true)])
    | .failure _ => (false, cache ++ [(documentId, false)])

/-- [...new Set(results.map(r => r.chunk.documentId))]: the unique
documentIds in first-occurrence order. -/
def uniqueDocumentIds (results : List VectorSearchResult) : List String :=
  (results.map (·.chunk.documentId)).foldl
    (fun acc d => if d ∈ acc then acc else acc ++ [d]) []

/-- KnowledgeSearchTool.filterByPermissions (knowledge-search.tool.ts
lines 115-148): check each unique documentId once, build the set of
accessible documents, and keep exactly the results whose documentId is
accessible.  The concurrent permission checks of the source are modelled
sequentially: the checked ids are pairwise distinct, so the interleaving
of cache reads and writes cannot change any decision. -/
def filterByPermissions (cache : PermissionCache)
    (probe : String → ProbeOutcome) (results : List VectorSearchResult) :
    List VectorSearchResult × PermissionCache :=
  let folded := (uniqueDocumentIds results).foldl
    (fun (st : List (String × Bool) × PermissionCache) d =>
      let checked := checkDocumentPermission st.2 probe d
      (st.1 ++ [(d, checked.1)], checked.2))
    ([], cache)
  let accessibleDocs := (folded.1.filter (·.2)).map (·.1)
  (results.filter (fun r => accessibleDocs.contains r.chunk.documentId),
    folded.2)

/-- One step of the Map fold in deduplicateByDocument: keep the
higher-scoring chunk per documentId (strictly greater replaces; the JS
Map keeps the key's original position on value update, and appends new
keys). -/
def dedupStep (acc : List VectorSearchResult) (r : VectorSearchResult) :
    List VectorSearchResult :=
  match acc.find? (fun a => a.chunk.documentId == r.chunk.documentId) with
  | none => acc ++ [r]
  | some existing =>
    if existing.score < r.score then
      acc.map (fun a =>
        if a.chunk.documentId == r.chunk.documentId then r else a)
    else acc

/-- The descending-score order of the final sort
(.sort((a, b) => b.score - a.score)). -/
def scoreDescRel (a b : VectorSearchResult) : Prop := b.score ≤ a.score

instance : DecidableRel scoreDescRel :=
  fun a b => inferInstanceAs (Decidable (b.score ≤ a.score))

/-- KnowledgeSearchTool.deduplicateByDocument (knowledge-search.tool.ts
lines 202-215): fold into a by-document map keeping the highest-scoring
chunk, then sort descending by score (both the JS sort and insertion
sort are stable). -/
def deduplicateByDocument (results : List VectorSearchResult) :
    List VectorSearchResult :=
  List.insertionSort scoreDescRel (results.foldl dedupStep [])

/-- The selection performed by KnowledgeSearchTool._call on the
permission-accessible results (knowledge-search.tool.ts lines 98-102):
deduplicate by document, then take the top K. -/
def finalResults (topK : Nat) (accessibleResults : List VectorSearchResult) :
    List VectorSearchResult :=
  (deduplicateByDocument accessibleResults).take topK

end KnowledgeSearchTool

namespace ChatService

/-- The message roles of the chat API (models.ts). -/
inductive Role where
  | user
  | assistant
  | system
deriving DecidableEq

/-- ChatMessage of models.ts. -/
structure ChatMessage where
  role : Role
  content : String
deriving DecidableEq

/-- ChatContext of models.ts: the site scope and the optional search mode
(search modes are the strings rag and kql). -/
structure ChatContext where
  siteUrl : String
  searchMode : Option String
deriving DecidableEq

/-- ChatRequest of models.ts. -/
structure ChatRequest where
  messages : List ChatMessage
  context : ChatContext
deriving DecidableEq

/-- The response object the controller actually builds.  searchMode is an
Option: none models the property being absent from the returned JS object
(models.ts declares ChatResponse with a required searchMode field). -/
structure ChatResponse where
  response : String
  messages : List ChatMessage
  searchMode : Option String
deriving DecidableEq

/-- The DEFAULT_SEARCH_MODE configuration getter
(configuration.service.ts line 29): get('DEFAULT_SEARCH_MODE') || 'kql'. -/
def defaultSearchModeConfig (env : Option String) : String :=
  match env with
  | some s => if s = "" then "kql" else s
  | none => "kql"

/-- The effective search mode of a chat request (chat.service.ts lines
50-53): context.searchMode ?? configured default (?? 'kql' is unreachable:
the getter already defaults to kql). -/
def effectiveSearchMode (requested : Option String) (env : Option String) :
    String :=
  match requested with
  | some m => m
  | none => defaultSearchModeConfig env

/-- ChatService.chat's returned conversation (chat.service.ts line 85):
the request messages plus one assistant message carrying the agent
executor's output. -/
def chatServiceMessages (messages : List ChatMessage) (agentOutput : String) :
    List ChatMessage :=
  messages ++ [{ role := .assistant, content := agentOutput }]

/-- ChatController.chat (chat.controller.ts lines 13-28): await the
service and return response (the last message's content) and messages.
No searchMode property is placed on the returned object. -/
def chatController (request : ChatRequest) (agentOutput : String) :
    ChatResponse :=
  let messages := chatServiceMessages request.messages agentOutput
  { response := ((messages.getLast?).map (·.content)).getD ""
    messages := messages
    searchMode := none }

end ChatService

/-! ## Concrete inputs used in the example theorems and witnesses -/

/-- A 3000-character text whose characters at offsets 1450 and 1451 are a
paragraph break, as in the chunk-boundary scenario of the spec. -/
def text3000 : List Char :=
  List.replicate 1450 'a' ++ '\n' :: '\n' :: List.replicate 1548 'a'

open VectorStoreService KnowledgeIndexerService in
/-- A stored chunk with every metadata field trivial except the given
documentId, chunk index and timestamp; its id is the one generateChunkId
produces. -/
def mkChunk (documentId : String) (i : Nat) (stamp : Nat) : DocumentChunk :=
  { id := generateChunkId documentId i
    documentId := documentId
    driveId := none
    webUrl := ""
    siteUrl := ""
    siteName := ""
    documentTitle := ""
    fileType := ""
    chunkIndex := i
    chunkText := []
    embedding := []
    documentModifiedAt := ""
    indexedAt := stamp }

/-- An index state holding 1001 chunks of one document, as produced by an
earlier pass over a very large document (more than 1000 chunks of a single
documentId need roughly 1.3 million characters of text). -/
def priorIndexC2 : List VectorStoreService.DocumentChunk :=
  (List.range 1001).map (fun i => mkChunk "d" i 0)

/-- The single chunk of the next pass over the same document. -/
def newChunkC2 : VectorStoreService.DocumentChunk := mkChunk "d" 0 1

/-- A knowledge document used in the pipeline witness. -/
def docW (ident title : String) : KnowledgeIndexerService.KnowledgeDocument :=
  { id := ident, title := title, webUrl := "", fileType := "pdf",
    lastModified := "", siteUrl := "", siteName := "", driveId := none,
    driveItemId := none }

/-- An extractor that throws for document 1 and returns 200 characters of
content for every other document. -/
def extractW (doc : KnowledgeIndexerService.KnowledgeDocument) :
    Except String (List Char) :=
  if doc.id == "1" then .error "Unknown error"
  else .ok (List.replicate 200 'a')

/-- An embedder that succeeds with one (empty) vector per input text. -/
def embedW (texts : List (List Char)) : Except String (List (List ℚ)) :=
  .ok (texts.map (fun _ => []))

/-- A probe granting access to document doc1 only; doc2 fails with 403. -/
def probeW (documentId : String) : KnowledgeSearchTool.ProbeOutcome :=
  if documentId == "doc1" then .success else .failure (some 403)

/-- A search hit on doc1. -/
def resultW1 : KnowledgeSearchTool.VectorSearchResult :=
  { chunk := mkChunk "doc1" 0 0, score := 9/10 }

/-- A search hit on doc2. -/
def resultW2 : KnowledgeSearchTool.VectorSearchResult :=
  { chunk := mkChunk "doc2" 0 0, score := 8/10 }

/-- A second, lower-scoring hit on doc1. -/
def resultW3 : KnowledgeSearchTool.VectorSearchResult :=
  { chunk := mkChunk "doc1" 1 0, score := 7/10 }

/-! ## Theorems -/

/-! ### Positions of pattern occurrences (lastIndexOf / indexOf) -/

theorem mem_of_getLast?_eq {α : Type} {l : List α} {x : α}
    (h : l.getLast? = some x) : x ∈ l := by
  rcases l with _ | ⟨a, t⟩
  · simp at h
  · rw [List.getLast?_eq_getLast _ (by simp)] at h
    exact (Option.some_inj.mp h) ▸ List.getLast_mem (by simp)

theorem lastOcc_spec {pat l : List Char} {i : Nat}
    (h : lastOcc pat l = some i) :
    pat <+: l.drop i ∧ i + pat.length ≤ l.length := by
  have hmem := mem_of_getLast?_eq h
  rw [List.mem_filter] at hmem
  obtain ⟨hrange, hocc⟩ := hmem
  rw [List.mem_range] at hrange
  have hpre : pat <+: l.drop i := by
    simpa [occursAt, List.isPrefixOf_iff_prefix] using hocc
  refine ⟨hpre, ?_⟩
  have hlen := hpre.length_le
  simp only [List.length_drop] at hlen
  omega

theorem firstOcc_spec {pat l : List Char} {i : Nat}
    (h : firstOcc pat l = some i) :
    pat <+: l.drop i ∧ i + pat.length ≤ l.length := by
  have hmem : i ∈ (List.range (l.length + 1)).filter (occursAt pat l) := by
    unfold firstOcc at h
    exact List.mem_of_mem_head? h
  rw [List.mem_filter] at hmem
  obtain ⟨hrange, hocc⟩ := hmem
  rw [List.mem_range] at hrange
  have hpre : pat <+: l.drop i := by
    simpa [occursAt, List.isPrefixOf_iff_prefix] using hocc
  refine ⟨hpre, ?_⟩
  have hlen := hpre.length_le
  simp only [List.length_drop] at hlen
  omega

/-! ### Chunker termination: the cursor strictly increases -/

theorem le_getD {base d : Nat} {o : Option Nat}
    (h1 : ∀ x, o = some x → base ≤ x) (h2 : base ≤ d) : base ≤ o.getD d := by
  cases o with
  | none => simpa
  | some x => simpa using h1 x rfl

theorem orElse_eq_some {α : Type} {a : Option α} {f : Unit → Option α} {x : α}
    (h : a.orElse f = some x) : a = some x ∨ f () = some x := by
  cases a <;> simp_all [Option.orElse]

namespace ChunkingService

theorem findStartPoint_ge (text : List Char) (idealStart maxStart : Nat) :
    idealStart ≤ findStartPoint text idealStart maxStart := by
  simp only [findStartPoint]
  apply le_getD _ le_rfl
  intro x hx
  rcases orElse_eq_some hx with h | h
  · rcases orElse_eq_some h with h' | h'
    · split at h' <;> simp_all
      omega
    · rcases hf : firstOcc ['\n', '\n']
          (jsSlice text idealStart (min maxStart (idealStart + 100))) with _ | i <;>
        rw [hf] at h' <;> simp at h'
      omega
  · rcases hf : firstOcc ['\n']
        (jsSlice text idealStart (min maxStart (idealStart + 100))) with _ | i <;>
      rw [hf] at h <;> simp at h
    omega

theorem nextCursor_gt (text : List Char) (cur endPos overlap : Nat) :
    cur < nextCursor text cur endPos overlap := by
  have h := findStartPoint_ge text (max (endPos - overlap) (cur + 1)) endPos
  have h2 : cur + 1 ≤ max (endPos - overlap) (cur + 1) := Nat.le_max_right _ _
  unfold nextCursor
  omega

theorem chunkLoop_isSome_of_fuel (text : List Char) (cs co mcs : Nat) :
    ∀ (fuel cur idx : Nat), 0 < fuel → text.length + 1 ≤ cur + fuel →
      (chunkLoop text cs co mcs fuel cur idx).isSome = true := by
  intro fuel
  induction fuel with
  | zero => omega
  | succ fuel ih =>
    intro cur idx _ hfuel
    rw [chunkLoop]
    by_cases hcur : cur < text.length
    · simp only [hcur, if_true]
      by_cases hend : text.length ≤ chunkEnd text cur cs
      · simp [hend]
      · have hfuel1 : 0 < fuel := by omega
        have hcur' := nextCursor_gt text cur (chunkEnd text cur cs) co
        have hrec := ih (nextCursor text cur (chunkEnd text cur cs) co)
          (if mcs ≤ (trimChars (jsSlice text cur (chunkEnd text cur cs))).length
            then idx + 1 else idx)
          hfuel1 (by omega)
        simp only [hend, if_false]
        rcases hloop : chunkLoop text cs co mcs fuel
            (nextCursor text cur (chunkEnd text cur cs) co)
            (if mcs ≤ (trimChars (jsSlice text cur (chunkEnd text cur cs))).length
              then idx + 1 else idx) with _ | tl
        · rw [hloop] at hrec
          simp at hrec
        · simp [hloop]
    · simp [hcur]

end ChunkingService

namespace ChunkingService

theorem getD_le {bound d : Nat} {o : Option Nat}
    (h1 : ∀ x, o = some x → x ≤ bound) (h2 : d ≤ bound) : o.getD d ≤ bound := by
  cases o with
  | none => simpa
  | some x => simpa using h1 x rfl

theorem breakSearchStart_le {start idealEnd cs : Nat} (h : start ≤ idealEnd) :
    breakSearchStart start idealEnd cs ≤ idealEnd :=
  max_le h (Nat.sub_le _ _)

theorem breakSearchText_length (text : List Char) {start idealEnd : Nat}
    (cs : Nat) (h1 : start ≤ idealEnd) (h2 : idealEnd ≤ text.length) :
    (breakSearchText text start idealEnd cs).length =
      idealEnd - breakSearchStart start idealEnd cs := by
  have h3 := @breakSearchStart_le start idealEnd cs h1
  simp only [breakSearchText, jsSlice, List.length_drop, List.length_take]
  omega

theorem findBreakPoint_eq_of_par {text : List Char}
    {start idealEnd cs i : Nat}
    (hp : lastOcc ['\n', '\n'] (breakSearchText text start idealEnd cs) = some i) :
    findBreakPoint text start idealEnd cs =
      breakSearchStart start idealEnd cs + i + 2 := by
  simp [findBreakPoint, hp, Option.orElse]

theorem findBreakPoint_eq_of_line {text : List Char}
    {start idealEnd cs i : Nat}
    (hp : lastOcc ['\n', '\n'] (breakSearchText text start idealEnd cs) = none)
    (hl : lastOcc ['\n'] (breakSearchText text start idealEnd cs) = some i) :
    findBreakPoint text start idealEnd cs =
      breakSearchStart start idealEnd cs + i + 1 := by
  simp [findBreakPoint, hp, hl, Option.orElse]

theorem findBreakPoint_eq_of_sentence {text : List Char}
    {start idealEnd cs i : Nat} {m : List Char}
    (hp : lastOcc ['\n', '\n'] (breakSearchText text start idealEnd cs) = none)
    (hl : lastOcc ['\n'] (breakSearchText text start idealEnd cs) = none)
    (hm : (sentenceMatches (breakSearchText text start idealEnd cs)).getLast? = some m)
    (ho : lastOcc m (breakSearchText text start idealEnd cs) = some i) :
    findBreakPoint text start idealEnd cs =
      breakSearchStart start idealEnd cs + i + m.length := by
  simp [findBreakPoint, hp, hl, hm, ho, Option.orElse]

theorem findBreakPoint_eq_of_period {text : List Char}
    {start idealEnd cs i : Nat}
    (hp : lastOcc ['\n', '\n'] (breakSearchText text start idealEnd cs) = none)
    (hl : lastOcc ['\n'] (breakSearchText text start idealEnd cs) = none)
    (hs : sentenceMatches (breakSearchText text start idealEnd cs) = [])
    (hper : lastOcc ['.', ' '] (breakSearchText text start idealEnd cs) = some i) :
    findBreakPoint text start idealEnd cs =
      breakSearchStart start idealEnd cs + i + 2 := by
  simp [findBreakPoint, hp, hl, hs, hper, Option.orElse]

theorem findBreakPoint_eq_of_space {text : List Char}
    {start idealEnd cs i : Nat}
    (hp : lastOcc ['\n', '\n'] (breakSearchText text start idealEnd cs) = none)
    (hl : lastOcc ['\n'] (breakSearchText text start idealEnd cs) = none)
    (hs : sentenceMatches (breakSearchText text start idealEnd cs) = [])
    (hper : lastOcc ['.', ' '] (breakSearchText text start idealEnd cs) = none)
    (hsp : lastOcc [' '] (breakSearchText text start idealEnd cs) = some i) :
    findBreakPoint text start idealEnd cs =
      breakSearchStart start idealEnd cs + i + 1 := by
  simp [findBreakPoint, hp, hl, hs, hper, hsp, Option.orElse]

theorem findBreakPoint_eq_fallback {text : List Char}
    {start idealEnd cs : Nat}
    (hp : lastOcc ['\n', '\n'] (breakSearchText text start idealEnd cs) = none)
    (hl : lastOcc ['\n'] (breakSearchText text start idealEnd cs) = none)
    (hs : sentenceMatches (breakSearchText text start idealEnd cs) = [])
    (hper : lastOcc ['.', ' '] (breakSearchText text start idealEnd cs) = none)
    (hsp : lastOcc [' '] (breakSearchText text start idealEnd cs) = none) :
    findBreakPoint text start idealEnd cs = idealEnd := by
  simp [findBreakPoint, hp, hl, hs, hper, hsp, Option.orElse]

theorem findBreakPoint_bounds {text : List Char} {start idealEnd cs : Nat}
    (h1 : start ≤ idealEnd) (h2 : idealEnd ≤ text.length) :
    breakSearchStart start idealEnd cs ≤ findBreakPoint text start idealEnd cs
    ∧ findBreakPoint text start idealEnd cs ≤ idealEnd := by
  have hS := @breakSearchStart_le start idealEnd cs h1
  have hT := breakSearchText_length text cs h1 h2
  constructor
  · simp only [findBreakPoint]
    apply le_getD _ hS
    intro x hx
    rcases orElse_eq_some hx with h | h
    rotate_left
    · rcases ho : lastOcc [' '] (breakSearchText text start idealEnd cs) with _ | i <;>
        rw [ho] at h <;> simp at h
      omega
    rcases orElse_eq_some h with h | h
    rotate_left
    · rcases ho : lastOcc ['.', ' '] (breakSearchText text start idealEnd cs) with _ | i <;>
        rw [ho] at h <;> simp at h
      omega
    rcases orElse_eq_some h with h | h
    rotate_left
    · rcases hm : (sentenceMatches (breakSearchText text start idealEnd cs)).getLast?
          with _ | m <;> rw [hm] at h <;> simp at h
      obtain ⟨i, ho, hx'⟩ := h
      omega
    rcases orElse_eq_some h with h | h
    · rcases ho : lastOcc ['\n', '\n'] (breakSearchText text start idealEnd cs) with _ | i <;>
        rw [ho] at h <;> simp at h
      omega
    · rcases ho : lastOcc ['\n'] (breakSearchText text start idealEnd cs) with _ | i <;>
        rw [ho] at h <;> simp at h
      omega
  · simp only [findBreakPoint]
    apply getD_le _ le_rfl
    intro x hx
    rcases orElse_eq_some hx with h | h
    rotate_left
    · rcases ho : lastOcc [' '] (breakSearchText text start idealEnd cs) with _ | i <;>
        rw [ho] at h <;> simp at h
      have := (lastOcc_spec ho).2
      simp at this
      omega
    rcases orElse_eq_some h with h | h
    rotate_left
    · rcases ho : lastOcc ['.', ' '] (breakSearchText text start idealEnd cs) with _ | i <;>
        rw [ho] at h <;> simp at h
      have := (lastOcc_spec ho).2
      simp at this
      omega
    rcases orElse_eq_some h with h | h
    rotate_left
    · rcases hm : (sentenceMatches (breakSearchText text start idealEnd cs)).getLast?
          with _ | m <;> rw [hm] at h <;> simp at h
      obtain ⟨i, ho, hx'⟩ := h
      have := (lastOcc_spec ho).2
      omega
    rcases orElse_eq_some h with h | h
    · rcases ho : lastOcc ['\n', '\n'] (breakSearchText text start idealEnd cs) with _ | i <;>
        rw [ho] at h <;> simp at h
      have := (lastOcc_spec ho).2
      simp at this
      omega
    · rcases ho : lastOcc ['\n'] (breakSearchText text start idealEnd cs) with _ | i <;>
        rw [ho] at h <;> simp at h
      have := (lastOcc_spec ho).2
      simp at this
      omega

end ChunkingService

set_option maxRecDepth 10000

theorem dropWhile_eq_self_of_head {p : Char → Bool} {l : List Char}
    (h : ∀ c ∈ l.head?, p c = false) : l.dropWhile p = l := by
  cases l with
  | nil => rfl
  | cons a t => simp [List.dropWhile_cons, h a rfl]

theorem trimChars_eq_self {l : List Char}
    (h1 : ∀ c ∈ l.head?, jsIsWs c = false)
    (h2 : ∀ c ∈ l.getLast?, jsIsWs c = false) : trimChars l = l := by
  unfold trimChars
  rw [dropWhile_eq_self_of_head h1]
  rw [dropWhile_eq_self_of_head (by simpa using h2)]
  exact List.reverse_reverse l

theorem text3000_head_char : text3000.head? = some 'a' := by
  rw [text3000, List.replicate_succ]
  rfl

theorem text3000_last_char : text3000.getLast? = some 'a' := by
  rw [text3000]
  nth_rewrite 2 [List.replicate_succ']
  rw [show ('\n' :: '\n' :: (List.replicate 1547 'a' ++ ['a']) : List Char)
      = ('\n' :: '\n' :: List.replicate 1547 'a') ++ ['a'] from rfl,
    ← List.append_assoc]
  exact List.getLast?_concat _

theorem text3000_trim : trimChars text3000 = text3000 := by
  apply trimChars_eq_self
  · simp [text3000_head_char, jsIsWs]
  · simp [text3000_last_char, jsIsWs]

theorem text3000_length : text3000.length = 3000 := by
  simp [text3000]

theorem text3000_isEmpty : text3000.isEmpty = false := by
  simp [text3000]

theorem text3000_fbp :
    ChunkingService.findBreakPoint text3000 0 1500 1500 = 1452 := by decide

theorem text3000_chunkEnd : ChunkingService.chunkEnd text3000 0 1500 = 1452 := by
  unfold ChunkingService.chunkEnd
  rw [text3000_length]
  norm_num [text3000_fbp]

theorem text3000_trim1452 :
    100 ≤ (trimChars (jsSlice text3000 0 1452)).length := by decide

theorem chunkLoop_succ (text : List Char) (cs co mcs fuel cur idx : Nat) :
    ChunkingService.chunkLoop text cs co mcs (fuel + 1) cur idx =
      (if cur < text.length then
        if text.length ≤ ChunkingService.chunkEnd text cur cs then
          some (if mcs ≤ (trimChars (jsSlice text cur
              (ChunkingService.chunkEnd text cur cs))).length then
            [⟨idx, trimChars (jsSlice text cur
              (ChunkingService.chunkEnd text cur cs)), cur,
              ChunkingService.chunkEnd text cur cs⟩]
          else [])
        else
          match ChunkingService.chunkLoop text cs co mcs fuel
            (ChunkingService.nextCursor text cur
              (ChunkingService.chunkEnd text cur cs) co)
            (if mcs ≤ (trimChars (jsSlice text cur
                (ChunkingService.chunkEnd text cur cs))).length then idx + 1
              else idx) with
          | none => none
          | some tl =>
            some (if mcs ≤ (trimChars (jsSlice text cur
                (ChunkingService.chunkEnd text cur cs))).length then
              ⟨idx, trimChars (jsSlice text cur
                (ChunkingService.chunkEnd text cur cs)), cur,
                ChunkingService.chunkEnd text cur cs⟩ :: tl
            else tl)
      else some []) := rfl

theorem text3000_head :
    ((ChunkingService.chunkText text3000 {}).head?).map
      (fun c => c.endOffset) = some 1452 := by
  unfold ChunkingService.chunkText
  rw [if_neg (by simp [text3000_trim, text3000_length, text3000_isEmpty])]
  show Option.map (fun c => c.endOffset)
    ((ChunkingService.chunkLoop text3000 1500 200 100
      (text3000.length + 1) 0 0).getD []).head? = some 1452
  rw [text3000_length]
  rw [chunkLoop_succ text3000 1500 200 100 3000 0 0]
  rw [text3000_length, text3000_chunkEnd]
  rw [if_pos (by norm_num : (0:Nat) < 3000)]
  rw [if_neg (by norm_num : ¬ ((3000:Nat) ≤ 1452))]
  rw [if_pos text3000_trim1452]
  have hsome := ChunkingService.chunkLoop_isSome_of_fuel text3000 1500 200 100
    3000 (ChunkingService.nextCursor text3000 0 1452 200) (0 + 1)
    (by norm_num) (by rw [text3000_length]
                      have := ChunkingService.nextCursor_gt text3000 0 1452 200
                      omega)
  rcases hloop : ChunkingService.chunkLoop text3000 1500 200 100 3000
      (ChunkingService.nextCursor text3000 0 1452 200) (0 + 1) with _ | tl
  · rw [hloop] at hsome
    simp at hsome
  · simp [text3000_trim1452]

/-- C7: when the tentative end lies strictly before the end of the text,
findBreakPoint picks the chunk end inside the window
[max(cursor, tentativeEnd - 0.3 * chunkSize), tentativeEnd], choosing in
preference order the last paragraph break, line break, sentence-end regex
match, period + space, word boundary, and falling back to a hard cut at
the tentative end; on the 3000-character text with a paragraph break at
offset 1450, the first chunk ends at offset 1452 (and findBreakPoint
returns 1452, not 1500). -/
theorem chunk_boundary_preference :
    (∀ (text : List Char) (start idealEnd chunkSize : Nat),
      start ≤ idealEnd → idealEnd ≤ text.length →
      (ChunkingService.breakSearchStart start idealEnd chunkSize ≤
          ChunkingService.findBreakPoint text start idealEnd chunkSize
        ∧ ChunkingService.findBreakPoint text start idealEnd chunkSize ≤ idealEnd)
      ∧ (∀ i, lastOcc ['\n', '\n']
            (ChunkingService.breakSearchText text start idealEnd chunkSize) = some i →
          ChunkingService.findBreakPoint text start idealEnd chunkSize =
            ChunkingService.breakSearchStart start idealEnd chunkSize + i + 2)
      ∧ (lastOcc ['\n', '\n']
            (ChunkingService.breakSearchText text start idealEnd chunkSize) = none →
          ∀ i, lastOcc ['\n']
              (ChunkingService.breakSearchText text start idealEnd chunkSize) = some i →
            ChunkingService.findBreakPoint text start idealEnd chunkSize =
              ChunkingService.breakSearchStart start idealEnd chunkSize + i + 1)
      ∧ (lastOcc ['\n', '\n']
            (ChunkingService.breakSearchText text start idealEnd chunkSize) = none →
          lastOcc ['\n']
            (ChunkingService.breakSearchText text start idealEnd chunkSize) = none →
          ∀ m i, (sentenceMatches
              (ChunkingService.breakSearchText text start idealEnd chunkSize)).getLast?
                = some m →
            lastOcc m (ChunkingService.breakSearchText text start idealEnd chunkSize)
                = some i →
            ChunkingService.findBreakPoint text start idealEnd chunkSize =
              ChunkingService.breakSearchStart start idealEnd chunkSize + i + m.length)
      ∧ (lastOcc ['\n', '\n']
            (ChunkingService.breakSearchText text start idealEnd chunkSize) = none →
          lastOcc ['\n']
            (ChunkingService.breakSearchText text start idealEnd chunkSize) = none →
          sentenceMatches
            (ChunkingService.breakSearchText text start idealEnd chunkSize) = [] →
          ∀ i, lastOcc ['.', ' ']
              (ChunkingService.breakSearchText text start idealEnd chunkSize) = some i →
            ChunkingService.findBreakPoint text start idealEnd chunkSize =
              ChunkingService.breakSearchStart start idealEnd chunkSize + i + 2)
      ∧ (lastOcc ['\n', '\n']
            (ChunkingService.breakSearchText text start idealEnd chunkSize) = none →
          lastOcc ['\n']
            (ChunkingService.breakSearchText text start idealEnd chunkSize) = none →
          sentenceMatches
            (ChunkingService.breakSearchText text start idealEnd chunkSize) = [] →
          lastOcc ['.', ' ']
            (ChunkingService.breakSearchText text start idealEnd chunkSize) = none →
          ∀ i, lastOcc [' ']
              (ChunkingService.breakSearchText text start idealEnd chunkSize) = some i →
            ChunkingService.findBreakPoint text start idealEnd chunkSize =
              ChunkingService.breakSearchStart start idealEnd chunkSize + i + 1)
      ∧ (lastOcc ['\n', '\n']
            (ChunkingService.breakSearchText text start idealEnd chunkSize) = none →
          lastOcc ['\n']
            (ChunkingService.breakSearchText text start idealEnd chunkSize) = none →
          sentenceMatches
            (ChunkingService.breakSearchText text start idealEnd chunkSize) = [] →
          lastOcc ['.', ' ']
            (ChunkingService.breakSearchText text start idealEnd chunkSize) = none →
          lastOcc [' ']
            (ChunkingService.breakSearchText text start idealEnd chunkSize) = none →
          ChunkingService.findBreakPoint text start idealEnd chunkSize = idealEnd))
    ∧ ((ChunkingService.chunkText text3000 {}).head?).map
        (fun c => c.endOffset) = some 1452
    ∧ ChunkingService.findBreakPoint text3000 0 1500 1500 = 1452 := by
  refine ⟨fun text start idealEnd chunkSize h1 h2 => ?_, text3000_head, text3000_fbp⟩
  refine ⟨ChunkingService.findBreakPoint_bounds h1 h2,
    fun i hp => ChunkingService.findBreakPoint_eq_of_par hp,
    fun hp i hl => ChunkingService.findBreakPoint_eq_of_line hp hl,
    fun hp hl m i hm ho => ChunkingService.findBreakPoint_eq_of_sentence hp hl hm ho,
    fun hp hl hs i hper => ChunkingService.findBreakPoint_eq_of_period hp hl hs hper,
    fun hp hl hs hper i hsp =>
      ChunkingService.findBreakPoint_eq_of_space hp hl hs hper hsp,
    fun hp hl hs hper hsp =>
      ChunkingService.findBreakPoint_eq_fallback hp hl hs hper hsp⟩

/-- Witness for C7: the window bound instantiated on the 3000-character
example, with the hypotheses discharged at concrete values. -/
theorem chunk_boundary_preference_witness :
    ChunkingService.breakSearchStart 0 1500 1500 ≤
        ChunkingService.findBreakPoint text3000 0 1500 1500
    ∧ ChunkingService.findBreakPoint text3000 0 1500 1500 ≤ 1500 :=
  (chunk_boundary_preference.1 text3000 0 1500 1500 (by norm_num)
    (by rw [text3000_length]; norm_num)).1

/-- C10: chunkText terminates on every input and options: findStartPoint
never returns a position below the one it is given, hence the cursor
update of each loop iteration strictly increases the cursor (it is at
least the previous cursor plus one), so the loop with fuel
text.length + 1 always completes without exhausting its fuel. -/
theorem chunkText_terminates :
    (∀ (text : List Char) (idealStart maxStart : Nat),
      idealStart ≤ ChunkingService.findStartPoint text idealStart maxStart)
    ∧ (∀ (text : List Char) (cur endPos overlap : Nat),
      cur < ChunkingService.nextCursor text cur endPos overlap)
    ∧ (∀ (text : List Char) (options : ChunkingService.ChunkOptions),
      (ChunkingService.chunkLoop text options.chunkSize options.chunkOverlap
        options.minChunkSize (text.length + 1) 0 0).isSome = true) :=
  ⟨ChunkingService.findStartPoint_ge, ChunkingService.nextCursor_gt,
    fun text options =>
      ChunkingService.chunkLoop_isSome_of_fuel text options.chunkSize
        options.chunkOverlap options.minChunkSize (text.length + 1) 0 0
        (by omega) (by omega)⟩

/-! ### Chunk-id generation (C9) -/

theorem digitChar_isDigit (n : Nat) : isDigitCh (digitChar n) = true := by
  rcases n with _|_|_|_|_|_|_|_|_|n <;> rfl

theorem natReprAux_fuel : ∀ (n f₁ f₂ : Nat), n < f₁ → n < f₂ →
    natReprAux f₁ n = natReprAux f₂ n := by
  intro n
  induction n using Nat.strong_induction_on with
  | _ n ih =>
    intro f₁ f₂ h₁ h₂
    rcases f₁ with _ | g₁
    · omega
    rcases f₂ with _ | g₂
    · omega
    rw [natReprAux, natReprAux]
    split
    · rfl
    · rename_i hn
      rw [ih (n / 10) (Nat.div_lt_self (by omega) (by omega)) g₁ g₂
        (by have := Nat.div_lt_self (show 0 < n by omega) (show 1 < 10 by omega)
            omega)
        (by have := Nat.div_lt_self (show 0 < n by omega) (show 1 < 10 by omega)
            omega)]

theorem natRepr_eq (n : Nat) : natRepr n =
    if n < 10 then [digitChar n]
    else natRepr (n / 10) ++ [digitChar (n % 10)] := by
  show natReprAux (n + 1) n = _
  rw [natReprAux]
  split
  · rfl
  · rename_i hn
    rw [natReprAux_fuel (n / 10) n (n / 10 + 1)
      (Nat.div_lt_self (by omega) (by omega)) (by omega)]
    rfl

theorem natRepr_digits : ∀ (n : Nat), ∀ c ∈ natRepr n, isDigitCh c = true := by
  intro n
  induction n using Nat.strong_induction_on with
  | _ n ih =>
    rw [natRepr_eq]
    split
    · intro c hc
      rw [List.mem_singleton] at hc
      exact hc ▸ digitChar_isDigit n
    · intro c hc
      rcases List.mem_append.mp hc with h | h
      · exact ih (n / 10) (Nat.div_lt_self (by omega) (by omega)) c h
      · rw [List.mem_singleton] at h
        exact h ▸ digitChar_isDigit (n % 10)

theorem digitsVal_append (xs : List Char) (c : Char) :
    digitsVal (xs ++ [c]) = 10 * digitsVal xs + digitVal c := by
  simp [digitsVal, List.foldl_append]

theorem digitVal_digitChar : ∀ n < 10, digitVal (digitChar n) = n := by decide

theorem digitsVal_natRepr : ∀ (n : Nat), digitsVal (natRepr n) = n := by
  intro n
  induction n using Nat.strong_induction_on with
  | _ n ih =>
    rw [natRepr_eq]
    split
    · rename_i h
      simp [digitsVal, digitVal_digitChar n h]
    · rename_i h
      rw [digitsVal_append, ih (n / 10) (Nat.div_lt_self (by omega) (by omega)),
        digitVal_digitChar (n % 10) (Nat.mod_lt n (by omega))]
      omega

theorem natRepr_inj {a b : Nat} (h : natRepr a = natRepr b) : a = b := by
  rw [← digitsVal_natRepr a, ← digitsVal_natRepr b, h]

theorem digit_prefix_split :
    ∀ (l₁ : List Char), (∀ c ∈ l₁, isDigitCh c = true) →
    ∀ (l₂ : List Char), (∀ c ∈ l₂, isDigitCh c = true) →
    ∀ (r₁ r₂ : List Char), l₁ ++ '_' :: r₁ = l₂ ++ '_' :: r₂ →
      l₁ = l₂ ∧ r₁ = r₂ := by
  intro l₁
  induction l₁ with
  | nil =>
    intro _ l₂ h₂ r₁ r₂ heq
    cases l₂ with
    | nil => simpa using heq
    | cons b t =>
      simp only [List.nil_append, List.cons_append, List.cons.injEq] at heq
      have hb := h₂ b (by simp)
      rw [← heq.1] at hb
      exact absurd hb (by decide)
  | cons a t ih =>
    intro h₁ l₂ h₂ r₁ r₂ heq
    cases l₂ with
    | nil =>
      simp only [List.nil_append, List.cons_append, List.cons.injEq] at heq
      have ha := h₁ a (by simp)
      rw [heq.1] at ha
      exact absurd ha (by decide)
    | cons b t₂ =>
      simp only [List.cons_append, List.cons.injEq] at heq
      obtain ⟨ht, hr⟩ := ih (fun c hc => h₁ c (by simp [hc])) t₂
        (fun c hc => h₂ c (by simp [hc])) r₁ r₂ heq.2
      exact ⟨by rw [heq.1, ht], hr⟩

theorem string_data_inj {a b : String} (h : a.data = b.data) : a = b := by
  cases a
  cases b
  exact congrArg String.mk h

theorem generateChunkId_data (d : String) (i : Nat) :
    (KnowledgeIndexerService.generateChunkId d i).data =
      (KnowledgeIndexerService.sanitizeDocumentId d).data ++
        ('_' :: 'c' :: 'h' :: 'u' :: 'n' :: 'k' :: '_' :: natRepr i) := by
  simp [KnowledgeIndexerService.generateChunkId, String.data_append]

theorem generateChunkId_parts {d₁ d₂ : String} {i₁ i₂ : Nat}
    (h : KnowledgeIndexerService.generateChunkId d₁ i₁ =
      KnowledgeIndexerService.generateChunkId d₂ i₂) :
    KnowledgeIndexerService.sanitizeDocumentId d₁ =
      KnowledgeIndexerService.sanitizeDocumentId d₂ ∧ i₁ = i₂ := by
  have hd := congrArg (fun s => s.data.reverse) h
  simp only [generateChunkId_data, List.reverse_append, List.reverse_cons,
    List.append_assoc, List.nil_append, List.cons_append] at hd
  obtain ⟨hdig, hrest⟩ := digit_prefix_split _
    (fun c hc => natRepr_digits i₁ c (List.mem_reverse.mp hc)) _
    (fun c hc => natRepr_digits i₂ c (List.mem_reverse.mp hc)) _ _ hd
  simp only [List.cons.injEq, true_and] at hrest
  refine ⟨string_data_inj (List.reverse_inj.mp hrest), ?_⟩
  exact natRepr_inj (List.reverse_inj.mp hdig)

/-- C9 counterexample: two distinct (documentId, chunkIndex) pairs whose
generated chunk ids coincide: the sanitization maps both "a.b" and "a_b"
to "a_b", so both pairs produce the id "a_b_chunk_0". -/
theorem generateChunkId_collision :
    KnowledgeIndexerService.generateChunkId "a.b" 0 =
      KnowledgeIndexerService.generateChunkId "a_b" 0
    ∧ ("a.b", (0 : Nat)) ≠ ("a_b", (0 : Nat)) := by
  constructor
  · decide
  · decide

/-- C9 (amended): generated chunk ids are distinct whenever the two
documentIds sanitize to distinct strings, or the documentIds are equal
and the chunk indexes differ; documentIds differing only in characters
outside [a-zA-Z0-9-_] sanitize to the same prefix and can collide. -/
theorem generateChunkId_unique (d₁ d₂ : String) (i₁ i₂ : Nat)
    (h : KnowledgeIndexerService.sanitizeDocumentId d₁ ≠
        KnowledgeIndexerService.sanitizeDocumentId d₂
      ∨ (d₁ = d₂ ∧ i₁ ≠ i₂)) :
    KnowledgeIndexerService.generateChunkId d₁ i₁ ≠
      KnowledgeIndexerService.generateChunkId d₂ i₂ := by
  intro heq
  obtain ⟨hs, hi⟩ := generateChunkId_parts heq
  rcases h with h | ⟨_, hne⟩
  · exact h hs
  · exact hne hi

/-- Witness for C9 (amended): two documents with distinct sanitized ids
get distinct chunk ids. -/
theorem generateChunkId_unique_witness :
    KnowledgeIndexerService.generateChunkId "x" 0 ≠
      KnowledgeIndexerService.generateChunkId "y" 0 :=
  generateChunkId_unique "x" "y" 0 0 (Or.inl (by decide))

/-! ### Vector store: delete-then-upsert replace semantics (C2) -/

namespace VectorStoreService

theorem processDocumentStore_fst (st : List DocumentChunk) (d : String)
    (chunks : List DocumentChunk) :
    (processDocumentStore st d chunks).1 =
      (upsertChunks (deleteDocumentChunks st d).1 chunks).1 := rfl

theorem processDocumentStore_snd (st : List DocumentChunk) (d : String)
    (chunks : List DocumentChunk) :
    (processDocumentStore st d chunks).2 =
      (deleteDocumentChunks st d).2 ++
        (upsertChunks (deleteDocumentChunks st d).1 chunks).2 := rfl

theorem upsertOne_mem_decomp {st : List DocumentChunk} {c x : DocumentChunk}
    (hx : x ∈ upsertOne st c) : x ∈ st ∨ x = c := by
  unfold upsertOne at hx
  split at hx
  · rw [List.mem_map] at hx
    obtain ⟨o, ho, he⟩ := hx
    split at he
    · exact Or.inr he.symm
    · exact Or.inl (he ▸ ho)
  · rcases List.mem_append.mp hx with h | h
    · exact Or.inl h
    · exact Or.inr (List.mem_singleton.mp h)

theorem mem_foldl_upsertOne {chunks : List DocumentChunk} :
    ∀ {st x}, x ∈ chunks.foldl upsertOne st → x ∈ st ∨ x ∈ chunks := by
  induction chunks with
  | nil => intro st x hx; exact Or.inl hx
  | cons c t ih =>
    intro st x hx
    rcases ih hx with h | h
    · rcases upsertOne_mem_decomp h with h' | h'
      · exact Or.inl h'
      · exact Or.inr (by simp [h'])
    · exact Or.inr (by simp [h])

theorem upsertOne_self {st : List DocumentChunk} {c : DocumentChunk} :
    c ∈ upsertOne st c := by
  unfold upsertOne
  split
  · rename_i h
    rw [List.any_eq_true] at h
    obtain ⟨o, ho, hid⟩ := h
    exact List.mem_map.mpr ⟨o, ho, by simp [hid]⟩
  · exact List.mem_append.mpr (Or.inr (by simp))

theorem upsertOne_preserve {st : List DocumentChunk} {c x : DocumentChunk}
    (hx : x ∈ st) (hne : (x.id == c.id) = false) : x ∈ upsertOne st c := by
  unfold upsertOne
  split
  · exact List.mem_map.mpr ⟨x, hx, by simp [hne]⟩
  · exact List.mem_append.mpr (Or.inl hx)

theorem foldl_upsertOne_preserve {chunks : List DocumentChunk} :
    ∀ {st x}, x ∈ st → (∀ y ∈ chunks, (x.id == y.id) = false) →
      x ∈ chunks.foldl upsertOne st := by
  induction chunks with
  | nil => intro st x hx _; exact hx
  | cons c t ih =>
    intro st x hx hids
    exact ih (upsertOne_preserve hx (hids c (by simp)))
      (fun y hy => hids y (by simp [hy]))

theorem mem_foldl_upsertOne_of_mem {chunks : List DocumentChunk}
    (hnodup : (chunks.map (·.id)).Nodup) :
    ∀ (st : List DocumentChunk), ∀ c ∈ chunks, c ∈ chunks.foldl upsertOne st := by
  induction chunks with
  | nil => intro st c hc; simp at hc
  | cons a t ih =>
    intro st c hc
    rw [List.map_cons, List.nodup_cons] at hnodup
    rw [List.foldl_cons]
    rcases List.mem_cons.mp hc with rfl | hct
    · refine foldl_upsertOne_preserve upsertOne_self (fun y hy => ?_)
      rw [beq_eq_false_iff_ne]
      intro hcontra
      exact hnodup.1 (List.mem_map.mpr ⟨y, hy, hcontra.symm⟩)
    · exact ih hnodup.2 (upsertOne st a) c hct

theorem deleteDocumentChunks_ids {st : List DocumentChunk} {d : String}
    (hcap : (st.filter (fun c => c.documentId == d)).length ≤ 1000) :
    ((st.filter (fun c => c.documentId == d)).map (·.id)).take 1000 =
      (st.filter (fun c => c.documentId == d)).map (·.id) :=
  List.take_of_length_le (by simpa using hcap)

theorem deleteDocumentChunks_subset {st : List DocumentChunk} {d : String} :
    ∀ c ∈ (deleteDocumentChunks st d).1, c ∈ st := by
  intro c hc
  simp only [deleteDocumentChunks] at hc
  split at hc
  · exact hc
  · exact (List.mem_filter.mp hc).1

theorem deleteDocumentChunks_no_match {st : List DocumentChunk} {d : String}
    (hcap : (st.filter (fun c => c.documentId == d)).length ≤ 1000) :
    ∀ c ∈ (deleteDocumentChunks st d).1, c.documentId ≠ d := by
  intro c hc hd
  simp only [deleteDocumentChunks] at hc
  rw [deleteDocumentChunks_ids hcap] at hc
  split at hc
  · rename_i hempty
    rw [List.isEmpty_iff, List.map_eq_nil_iff] at hempty
    have hcfil : c ∈ st.filter (fun c => c.documentId == d) :=
      List.mem_filter.mpr ⟨hc, by simp [hd]⟩
    rw [hempty] at hcfil
    simp at hcfil
  · rw [List.mem_filter] at hc
    obtain ⟨hcst, hcid⟩ := hc
    have hcfil : c ∈ st.filter (fun c => c.documentId == d) :=
      List.mem_filter.mpr ⟨hcst, by simp [hd]⟩
    have hmemid : c.id ∈ (st.filter (fun c => c.documentId == d)).map (·.id) :=
      List.mem_map.mpr ⟨c, hcfil, rfl⟩
    rw [← List.elem_iff] at hmemid
    rw [List.contains, hmemid] at hcid
    simp at hcid

theorem deleteDocumentChunks_no_op {st : List DocumentChunk} {d : String}
    (hfil : st.filter (fun c => c.documentId == d) = []) :
    deleteDocumentChunks st d = (st, [VectorOp.search d]) := by
  unfold deleteDocumentChunks
  rw [hfil]
  rfl

theorem upsertChunks_fst_of_ne_nil (chunks st : List DocumentChunk)
    (h : chunks.isEmpty = false) :
    (upsertChunks st chunks).1 = chunks.foldl upsertOne st := by
  unfold upsertChunks
  rw [h]
  rfl

theorem upsertChunks_mem_decomp {st chunks : List DocumentChunk}
    {x : DocumentChunk} (hx : x ∈ (upsertChunks st chunks).1) :
    x ∈ st ∨ x ∈ chunks := by
  unfold upsertChunks at hx
  split at hx
  · exact Or.inl hx
  · exact mem_foldl_upsertOne hx

theorem upsertChunks_mem_of_mem {st chunks : List DocumentChunk}
    (hnodup : (chunks.map (·.id)).Nodup) :
    ∀ c ∈ chunks, c ∈ (upsertChunks st chunks).1 := by
  intro c hc
  have hne : chunks.isEmpty = false := by
    rcases chunks with _ | _
    · simp at hc
    · rfl
  rw [upsertChunks_fst_of_ne_nil chunks st hne]
  exact mem_foldl_upsertOne_of_mem hnodup st c hc

theorem delete_trace_no_upsert {st : List DocumentChunk} {d : String} :
    ∀ op ∈ (deleteDocumentChunks st d).2, op.isUpsert = false := by
  intro op hop
  simp only [deleteDocumentChunks] at hop
  split at hop <;> simp at hop
  · rw [hop]
    rfl
  · rcases hop with h | h <;> rw [h] <;> rfl

theorem upsert_trace_no_delete {st chunks : List DocumentChunk} :
    ∀ op ∈ (upsertChunks st chunks).2, op.isDelete = false := by
  intro op hop
  unfold upsertChunks at hop
  split at hop <;> simp at hop
  rw [hop]
  rfl

theorem pairwise_guard_left {l : List VectorOp}
    (h : ∀ a ∈ l, a.isUpsert = false) :
    l.Pairwise (fun a b => a.isUpsert = true → b.isDelete = false) := by
  induction l with
  | nil => exact List.Pairwise.nil
  | cons a t ih =>
    refine List.Pairwise.cons (fun b _ hup => ?_) (ih (fun x hx => h x (by simp [hx])))
    rw [h a (by simp)] at hup
    cases hup

theorem pairwise_guard_right {l : List VectorOp}
    (h : ∀ b ∈ l, b.isDelete = false) :
    l.Pairwise (fun a b => a.isUpsert = true → b.isDelete = false) := by
  induction l with
  | nil => exact List.Pairwise.nil
  | cons a t ih =>
    exact List.Pairwise.cons (fun b hb _ => h b (by simp [hb]))
      (ih (fun x hx => h x (by simp [hx])))

end VectorStoreService

open VectorStoreService in
/-- C2 (amended): for a document processed with embeddings, the
vector-store trace has every delete before every upsert (delete → upsert
is strict per document), and no delete call is issued when no chunk
matches the documentId filter; provided at most 1000 chunks with that
documentId are in the index (the id-discovery search is capped at
top=1000), the chunks of that documentId after the pass are exactly the
new chunks. -/
theorem processDocument_replace_semantics
    (st : List DocumentChunk) (d : String) (new : List DocumentChunk)
    (hcap : (st.filter (fun c => c.documentId == d)).length ≤ 1000)
    (hnew : (new.map (·.id)).Nodup) :
    (∀ c ∈ (processDocumentStore st d new).1, c.documentId = d → c ∈ new)
    ∧ (∀ c ∈ new, c ∈ (processDocumentStore st d new).1)
    ∧ ((processDocumentStore st d new).2).Pairwise
        (fun a b => a.isUpsert = true → b.isDelete = false)
    ∧ (∀ (st₂ : List DocumentChunk) (d₂ : String),
        st₂.filter (fun c => c.documentId == d₂) = [] →
        deleteDocumentChunks st₂ d₂ = (st₂, [VectorOp.search d₂])) := by
  refine ⟨?_, ?_, ?_, fun st₂ d₂ h => deleteDocumentChunks_no_op h⟩
  · intro c hc hd
    rw [processDocumentStore_fst] at hc
    rcases upsertChunks_mem_decomp hc with h | h
    · exact absurd hd (deleteDocumentChunks_no_match hcap c h)
    · exact h
  · intro c hc
    rw [processDocumentStore_fst]
    exact upsertChunks_mem_of_mem hnew c hc
  · rw [processDocumentStore_snd]
    rw [List.pairwise_append]
    exact ⟨pairwise_guard_left delete_trace_no_upsert,
      pairwise_guard_right upsert_trace_no_delete,
      fun a _ b hb hup => upsert_trace_no_delete b hb⟩

open VectorStoreService in
/-- Witness for C2 (amended): a one-chunk index for document d is fully
replaced by the new chunk of the next pass. -/
theorem processDocument_replace_semantics_witness :
    newChunkC2 ∈ (processDocumentStore [mkChunk "d" 5 0] "d" [newChunkC2]).1 :=
  (processDocument_replace_semantics [mkChunk "d" 5 0] "d" [newChunkC2]
    (by decide) (by decide)).2.1 newChunkC2 (by decide)

open VectorStoreService in
/-- C2 counterexample: with 1001 chunks of one document in the index, the
id-discovery search (top=1000) misses one chunk, so after the pass a
chunk from the prior pass of that document remains in the index. -/
theorem processDocument_orphan_chunk :
    mkChunk "d" 1000 0 ∈ (processDocumentStore priorIndexC2 "d" [newChunkC2]).1
    ∧ (mkChunk "d" 1000 0).documentId = "d"
    ∧ mkChunk "d" 1000 0 ∉ [newChunkC2] := by
  have hinj : ∀ i j : Nat,
      KnowledgeIndexerService.generateChunkId "d" i =
        KnowledgeIndexerService.generateChunkId "d" j → i = j :=
    fun i j h => (generateChunkId_parts h).2
  have hmem : mkChunk "d" 1000 0 ∈ priorIndexC2 := by
    unfold priorIndexC2
    exact List.mem_map.mpr ⟨1000, by simp, rfl⟩
  have hfil : priorIndexC2.filter (fun c => c.documentId == "d") = priorIndexC2 := by
    rw [List.filter_eq_self]
    intro c hc
    unfold priorIndexC2 at hc
    rw [List.mem_map] at hc
    obtain ⟨i, _, rfl⟩ := hc
    rfl
  have hids : ((priorIndexC2.filter (fun c => c.documentId == "d")).map (·.id)).take 1000
      = (List.range 1000).map
          (fun i => KnowledgeIndexerService.generateChunkId "d" i) := by
    rw [hfil]
    unfold priorIndexC2
    rw [List.map_map, ← List.map_take, List.take_range]
    rfl
  have hsur_id : (mkChunk "d" 1000 0).id ∉
      ((priorIndexC2.filter (fun c => c.documentId == "d")).map (·.id)).take 1000 := by
    rw [hids]
    intro hmem'
    rw [List.mem_map] at hmem'
    obtain ⟨j, hj, hje⟩ := hmem'
    rw [List.mem_range] at hj
    have := hinj j 1000 hje
    omega
  have hsur1 : mkChunk "d" 1000 0 ∈ (deleteDocumentChunks priorIndexC2 "d").1 := by
    simp only [deleteDocumentChunks]
    split
    · exact hmem
    · rw [List.mem_filter]
      refine ⟨hmem, ?_⟩
      have hcon : (((priorIndexC2.filter (fun c => c.documentId == "d")).map
          (·.id)).take 1000).contains (mkChunk "d" 1000 0).id = false := by
        rw [← Bool.not_eq_true]
        intro hb
        rw [List.contains, List.elem_iff] at hb
        exact hsur_id hb
      rw [hcon]
      rfl
  have hne : ((mkChunk "d" 1000 0).id == newChunkC2.id) = false := by
    rw [beq_eq_false_iff_ne]
    intro h
    have := hinj 1000 0 h
    omega
  refine ⟨?_, rfl, ?_⟩
  · rw [processDocumentStore_fst,
      upsertChunks_fst_of_ne_nil [newChunkC2] _ (by rfl),
      List.foldl_cons, List.foldl_nil]
    exact upsertOne_preserve hsur1 hne
  · intro hmem'
    rw [List.mem_singleton] at hmem'
    have := congrArg VectorStoreService.DocumentChunk.chunkIndex hmem'
    simp [mkChunk, newChunkC2] at this

/-! ### Scheduler guard (C3), startup/disable flag (C4), chat response (C6) -/

/-- C3: a runIndexer invocation arriving while a pass is in progress
(isRunning true) returns the "already running" result immediately, does
not invoke the indexing pipeline, and leaves the flag set, so only the
pass already in progress mutates the index; when isRunning is false the
pipeline is invoked and isRunning is false again after the call whether
the pipeline returns or throws, so a later trigger runs normally. -/
theorem runIndexer_singleton_guard :
    (∀ p, KnowledgeSchedulerService.runIndexer true p =
      (KnowledgeSchedulerService.alreadyRunningResult, true, false))
    ∧ KnowledgeSchedulerService.alreadyRunningResult.errors =
        ["Indexer already running"]
    ∧ (∀ p, (KnowledgeSchedulerService.runIndexer false p).2.2 = true
        ∧ (KnowledgeSchedulerService.runIndexer false p).2.1 = false) := by
  refine ⟨fun p => rfl, rfl, fun p => ?_⟩
  rcases p with e | r <;> exact ⟨rfl, rfl⟩

/-- C4 (code bug): the configuration getter computes
KNOWLEDGE_INDEXER_ENABLED as get(...) || true, which is true even when
the environment disables the indexer, so scheduler startup always runs an
immediate pass and schedules the repeating timer; the scheduler itself
would honor a false flag (onModuleInit false does nothing). -/
theorem scheduler_startup_ignores_disable :
    ConfigurationService.knowledgeIndexerEnabledConfig (some false) = true
    ∧ KnowledgeSchedulerService.schedulerStartup (some false) = (true, true)
    ∧ (∀ env, KnowledgeSchedulerService.schedulerStartup env = (true, true))
    ∧ KnowledgeSchedulerService.onModuleInit false = (false, false) := by
  refine ⟨rfl, rfl, fun env => ?_, rfl⟩
  rcases env with _ | b
  · rfl
  · rcases b <;> rfl

/-- C6 (code bug): on a successful chat request the controller builds
messages as the request messages plus exactly one assistant message and
response as that message's content, but returns no searchMode property,
although models.ts declares ChatResponse with a required searchMode and
the service computes the effective mode as requested mode, else
configured default, else kql. -/
theorem chat_response_missing_searchMode :
    (ChatService.chatController
        { messages := [{ role := .user, content := "hi" }],
          context := { siteUrl := "https://contoso.example",
                       searchMode := some "rag" } }
        "hello").searchMode = none
    ∧ (ChatService.chatController
        { messages := [{ role := .user, content := "hi" }],
          context := { siteUrl := "https://contoso.example",
                       searchMode := some "rag" } }
        "hello").messages =
        [{ role := .user, content := "hi" },
         { role := .assistant, content := "hello" }]
    ∧ (ChatService.chatController
        { messages := [{ role := .user, content := "hi" }],
          context := { siteUrl := "https://contoso.example",
                       searchMode := some "rag" } }
        "hello").response = "hello"
    ∧ (∀ request agentOutput, (ChatService.chatController request agentOutput).searchMode = none)
    ∧ ChatService.effectiveSearchMode (some "rag") none = "rag"
    ∧ ChatService.effectiveSearchMode none (some "rag") = "rag"
    ∧ ChatService.effectiveSearchMode none none = "kql" :=
  ⟨rfl, rfl, rfl, fun _ _ => rfl, rfl, rfl, rfl⟩

/-! ### Knowledge-search permission filter (C1) -/

namespace KnowledgeSearchTool

theorem cacheLookup_nil (k : String) : cacheLookup [] k = none := rfl

theorem cacheLookup_append (c₁ c₂ : PermissionCache) (k : String) :
    cacheLookup (c₁ ++ c₂) k =
      match cacheLookup c₁ k with
      | some b => some b
      | none => cacheLookup c₂ k := by
  induction c₁ with
  | nil => simp [cacheLookup]
  | cons e t ih =>
    by_cases h : (e.1 == k) = true
    · simp [cacheLookup, List.find?, h]
    · simp only [Bool.not_eq_true] at h
      simp only [cacheLookup, List.cons_append, List.find?, h] at ih ⊢
      exact ih

theorem checkDocumentPermission_hit {cache : PermissionCache} {d : String}
    {b : Bool} (h : cacheLookup cache d = some b)
    (probe : String → ProbeOutcome) :
    checkDocumentPermission cache probe d = (b, cache) := by
  unfold checkDocumentPermission
  rw [h]

theorem checkDocumentPermission_miss {cache : PermissionCache} {d : String}
    (h : cacheLookup cache d = none) (probe : String → ProbeOutcome) :
    checkDocumentPermission cache probe d =
      (decide (probe d = .success),
        cache ++ [(d, decide (probe d = .success))]) := by
  unfold checkDocumentPermission
  rw [h]
  rcases hp : probe d with _ | s <;> simp [hp]

theorem dedupFold_invariant :
    ∀ (l : List String) (acc : List String), acc.Nodup →
      (l.foldl (fun acc d => if d ∈ acc then acc else acc ++ [d]) acc).Nodup
      ∧ (∀ x, x ∈ l.foldl (fun acc d => if d ∈ acc then acc else acc ++ [d]) acc
          ↔ x ∈ acc ∨ x ∈ l) := by
  intro l
  induction l with
  | nil => intro acc h; simpa using h
  | cons d t ih =>
    intro acc hacc
    rw [List.foldl_cons]
    by_cases hd : d ∈ acc
    · rw [if_pos hd]
      obtain ⟨h1, h2⟩ := ih acc hacc
      refine ⟨h1, fun x => ?_⟩
      rw [h2 x]
      constructor
      · rintro (h | h)
        · exact Or.inl h
        · exact Or.inr (by simp [h])
      · rintro (h | h)
        · exact Or.inl h
        · rcases List.mem_cons.mp h with rfl | h'
          · exact Or.inl hd
          · exact Or.inr h'
    · rw [if_neg hd]
      obtain ⟨h1, h2⟩ := ih (acc ++ [d]) (by simp [List.nodup_append, hacc, hd])
      refine ⟨h1, fun x => ?_⟩
      rw [h2 x]
      constructor
      · rintro (h | h)
        · rcases List.mem_append.mp h with h' | h'
          · exact Or.inl h'
          · exact Or.inr (by simp at h'; simp [h'])
        · exact Or.inr (by simp [h])
      · rintro (h | h)
        · exact Or.inl (List.mem_append.mpr (Or.inl h))
        · rcases List.mem_cons.mp h with rfl | h'
          · exact Or.inl (by simp)
          · exact Or.inr h'

theorem uniqueDocumentIds_nodup (results : List VectorSearchResult) :
    (uniqueDocumentIds results).Nodup := by
  unfold uniqueDocumentIds
  exact (dedupFold_invariant (results.map (·.chunk.documentId)) []
    List.Pairwise.nil).1

theorem mem_uniqueDocumentIds {results : List VectorSearchResult} {x : String} :
    x ∈ uniqueDocumentIds results ↔ x ∈ results.map (·.chunk.documentId) := by
  unfold uniqueDocumentIds
  rw [(dedupFold_invariant (results.map (·.chunk.documentId)) []
    List.Pairwise.nil).2 x]
  simp

theorem permFold (probe : String → ProbeOutcome) :
    ∀ (ids : List String) (cache : PermissionCache)
      (acc : List (String × Bool)),
      ids.Nodup → (∀ d ∈ ids, cacheLookup cache d = none) →
      ids.foldl (fun (st : List (String × Bool) × PermissionCache) d =>
          let checked := checkDocumentPermission st.2 probe d
          (st.1 ++ [(d, checked.1)], checked.2)) (acc, cache)
        = (acc ++ ids.map (fun d => (d, decide (probe d = .success))),
           cache ++ ids.map (fun d => (d, decide (probe d = .success)))) := by
  intro ids
  induction ids with
  | nil => intro cache acc _ _; simp
  | cons d t ih =>
    intro cache acc hnodup hnone
    rw [List.foldl_cons]
    simp only [checkDocumentPermission_miss (hnone d (by simp)) probe]
    rw [List.nodup_cons] at hnodup
    rw [ih (cache ++ [(d, decide (probe d = .success))])
      (acc ++ [(d, decide (probe d = .success))]) hnodup.2 ?_]
    · simp
    · intro d' hd'
      rw [cacheLookup_append, hnone d' (by simp [hd'])]
      have hne : (d == d') = false := by
        rw [beq_eq_false_iff_ne]
        rintro rfl
        exact hnodup.1 hd'
      simp [cacheLookup, List.find?, hne]

theorem lookup_map_self {ids : List String} {d : String}
    (f : String → Bool) (hnodup : ids.Nodup) (hd : d ∈ ids) :
    cacheLookup (ids.map (fun d => (d, f d))) d = some (f d) := by
  induction ids with
  | nil => simp at hd
  | cons a t ih =>
    rw [List.nodup_cons] at hnodup
    rcases List.mem_cons.mp hd with rfl | hdt
    · simp [cacheLookup, List.find?]
    · have hne : (a == d) = false := by
        rw [beq_eq_false_iff_ne]
        rintro rfl
        exact hnodup.1 hdt
      simp only [List.map_cons, cacheLookup, List.find?, hne]
      exact ih hnodup.2 hdt

theorem mem_accessible_iff {probe : String → ProbeOutcome}
    {results : List VectorSearchResult} {x : String} :
    (x ∈ (((uniqueDocumentIds results).map
        (fun d => (d, decide (probe d = .success)))).filter (·.2)).map (·.1))
      ↔ x ∈ uniqueDocumentIds results ∧ probe x = .success := by
  constructor
  · intro hx
    rw [List.mem_map] at hx
    obtain ⟨⟨d, b⟩, hdb, hfst⟩ := hx
    rw [List.mem_filter] at hdb
    obtain ⟨hdmem, hb⟩ := hdb
    rw [List.mem_map] at hdmem
    obtain ⟨d', hd', he⟩ := hdmem
    cases he
    simp only at hfst
    subst hfst
    simp only at hb
    exact ⟨hd', of_decide_eq_true hb⟩
  · rintro ⟨hmem, hsucc⟩
    refine List.mem_map.mpr ⟨(x, decide (probe x = .success)), ?_, rfl⟩
    rw [List.mem_filter]
    exact ⟨List.mem_map.mpr ⟨x, hmem, rfl⟩, by simp [hsucc]⟩

theorem filterByPermissions_empty_eq (probe : String → ProbeOutcome)
    (results : List VectorSearchResult) :
    filterByPermissions [] probe results =
      (results.filter (fun r =>
        (((uniqueDocumentIds results).map
          (fun d => (d, decide (probe d = .success)))).filter (·.2)).map (·.1)
          |>.contains r.chunk.documentId),
       (uniqueDocumentIds results).map
         (fun d => (d, decide (probe d = .success)))) := by
  unfold filterByPermissions
  rw [permFold probe (uniqueDocumentIds results) [] []
    (uniqueDocumentIds_nodup results) (fun d _ => cacheLookup_nil d)]
  simp

end KnowledgeSearchTool

/-- C1: every chunk the knowledge_search tool keeps after permission
filtering belongs to a document whose probe (issued with the user's
delegated credential) succeeded; whenever the probe fails — 403, 404, or
any other error — every chunk of that document is dropped (fail-closed);
the decision for each documentId is recorded in the per-request cache,
and a cached decision is answered from the cache without re-probing. -/
theorem knowledge_search_fail_closed :
    (∀ (probe : String → KnowledgeSearchTool.ProbeOutcome)
       (results : List KnowledgeSearchTool.VectorSearchResult),
      (∀ r ∈ (KnowledgeSearchTool.filterByPermissions [] probe results).1,
        probe r.chunk.documentId = .success)
      ∧ (∀ r ∈ results, probe r.chunk.documentId ≠ .success →
          r ∉ (KnowledgeSearchTool.filterByPermissions [] probe results).1)
      ∧ (∀ r ∈ results,
          KnowledgeSearchTool.cacheLookup
            (KnowledgeSearchTool.filterByPermissions [] probe results).2
            r.chunk.documentId
            = some (decide (probe r.chunk.documentId = .success))))
    ∧ (∀ (cache : KnowledgeSearchTool.PermissionCache) (k : String) (b : Bool)
        (p₁ p₂ : String → KnowledgeSearchTool.ProbeOutcome),
        KnowledgeSearchTool.cacheLookup cache k = some b →
        KnowledgeSearchTool.checkDocumentPermission cache p₁ k = (b, cache)
        ∧ KnowledgeSearchTool.checkDocumentPermission cache p₂ k =
            KnowledgeSearchTool.checkDocumentPermission cache p₁ k) := by
  constructor
  · intro probe results
    have hout : ∀ r ∈ (KnowledgeSearchTool.filterByPermissions [] probe results).1,
        probe r.chunk.documentId = .success := by
      intro r hr
      rw [KnowledgeSearchTool.filterByPermissions_empty_eq] at hr
      simp only [List.mem_filter] at hr
      obtain ⟨_, hcon⟩ := hr
      rw [List.contains, List.elem_iff] at hcon
      exact (KnowledgeSearchTool.mem_accessible_iff.mp hcon).2
    refine ⟨hout, ?_, ?_⟩
    · intro r _ hfail hr
      exact hfail (hout r hr)
    · intro r hr
      rw [KnowledgeSearchTool.filterByPermissions_empty_eq]
      exact KnowledgeSearchTool.lookup_map_self _
        (KnowledgeSearchTool.uniqueDocumentIds_nodup results)
        (KnowledgeSearchTool.mem_uniqueDocumentIds.mpr
          (List.mem_map.mpr ⟨r, hr, rfl⟩))
  · intro cache k b p₁ p₂ h
    rw [KnowledgeSearchTool.checkDocumentPermission_hit h p₁,
      KnowledgeSearchTool.checkDocumentPermission_hit h p₂]
    exact ⟨rfl, rfl⟩

/-- Witness for C1: with a probe granting doc1 and failing doc2 with 403,
the doc2 hit is dropped from the filtered results. -/
theorem knowledge_search_fail_closed_witness :
    resultW2 ∉ (KnowledgeSearchTool.filterByPermissions [] probeW
      [resultW1, resultW2]).1 :=
  (knowledge_search_fail_closed.1 probeW [resultW1, resultW2]).2.1 resultW2
    (by simp) (by decide)

/-! ### Knowledge-search deduplication and top-K selection (C8) -/

namespace KnowledgeSearchTool

instance : IsTotal VectorSearchResult scoreDescRel :=
  ⟨fun a b => (le_total b.score a.score).elim Or.inl Or.inr⟩

instance : IsTrans VectorSearchResult scoreDescRel :=
  ⟨fun _ _ _ hab hbc => le_trans hbc hab⟩

theorem nodup_same_doc {acc : List VectorSearchResult}
    (h : (acc.map (·.chunk.documentId)).Nodup) {a b : VectorSearchResult}
    (ha : a ∈ acc) (hb : b ∈ acc)
    (hd : a.chunk.documentId = b.chunk.documentId) : a = b :=
  List.inj_on_of_nodup_map h ha hb hd

theorem dedupStep_find_none {acc : List VectorSearchResult}
    {r : VectorSearchResult}
    (hf : acc.find? (fun a => a.chunk.documentId == r.chunk.documentId) = none) :
    dedupStep acc r = acc ++ [r] := by
  unfold dedupStep
  rw [hf]

theorem dedupStep_find_replace {acc : List VectorSearchResult}
    {r existing : VectorSearchResult}
    (hf : acc.find? (fun a => a.chunk.documentId == r.chunk.documentId)
      = some existing)
    (hlt : existing.score < r.score) :
    dedupStep acc r = acc.map (fun a =>
      if a.chunk.documentId == r.chunk.documentId then r else a) := by
  unfold dedupStep
  rw [hf]
  simp [hlt]

theorem dedupStep_find_keep {acc : List VectorSearchResult}
    {r existing : VectorSearchResult}
    (hf : acc.find? (fun a => a.chunk.documentId == r.chunk.documentId)
      = some existing)
    (hnlt : ¬ existing.score < r.score) :
    dedupStep acc r = acc := by
  unfold dedupStep
  rw [hf]
  simp [hnlt]

theorem dedupStep_docIds_nodup {acc : List VectorSearchResult}
    {r : VectorSearchResult} (h : (acc.map (·.chunk.documentId)).Nodup) :
    ((dedupStep acc r).map (·.chunk.documentId)).Nodup := by
  rcases hf : acc.find? (fun a => a.chunk.documentId == r.chunk.documentId)
      with _ | existing
  · rw [dedupStep_find_none hf]
    have hnone := List.find?_eq_none.mp hf
    rw [List.map_append, List.nodup_append]
    refine ⟨h, by simp, ?_⟩
    intro x hx
    rw [List.mem_map] at hx
    obtain ⟨a, ha, rfl⟩ := hx
    simp only [List.map_cons, List.map_nil, List.mem_singleton]
    intro hcontra
    have := hnone a ha
    rw [hcontra] at this
    simp at this
  · by_cases hlt : existing.score < r.score
    · rw [dedupStep_find_replace hf hlt]
      have heq : ((acc.map (fun a =>
          if a.chunk.documentId == r.chunk.documentId then r else a)).map
            (·.chunk.documentId)) = acc.map (·.chunk.documentId) := by
        rw [List.map_map]
        apply List.map_congr_left
        intro a _
        by_cases hc : (a.chunk.documentId == r.chunk.documentId) = true
        · simp only [Function.comp, hc, if_true]
          exact (beq_iff_eq.mp hc).symm
        · rw [Bool.not_eq_true] at hc
          simp [Function.comp, hc]
      rw [heq]
      exact h
    · rw [dedupStep_find_keep hf hlt]
      exact h

theorem dedupStep_mem_decomp {acc : List VectorSearchResult}
    {r x : VectorSearchResult} (hx : x ∈ dedupStep acc r) :
    x ∈ acc ∨ x = r := by
  rcases hf : acc.find? (fun a => a.chunk.documentId == r.chunk.documentId)
      with _ | existing
  · rw [dedupStep_find_none hf] at hx
    rcases List.mem_append.mp hx with h | h
    · exact Or.inl h
    · exact Or.inr (List.mem_singleton.mp h)
  · by_cases hlt : existing.score < r.score
    · rw [dedupStep_find_replace hf hlt] at hx
      rw [List.mem_map] at hx
      obtain ⟨a, ha, he⟩ := hx
      split at he
      · exact Or.inr he.symm
      · exact Or.inl (he ▸ ha)
    · rw [dedupStep_find_keep hf hlt] at hx
      exact Or.inl hx

theorem dedupStep_dominates_acc {acc : List VectorSearchResult}
    {r : VectorSearchResult} (h : (acc.map (·.chunk.documentId)).Nodup) :
    ∀ b ∈ acc, ∃ c ∈ dedupStep acc r,
      c.chunk.documentId = b.chunk.documentId ∧ b.score ≤ c.score := by
  intro b hb
  rcases hf : acc.find? (fun a => a.chunk.documentId == r.chunk.documentId)
      with _ | existing
  · rw [dedupStep_find_none hf]
    exact ⟨b, List.mem_append.mpr (Or.inl hb), rfl, le_refl _⟩
  · have hex_mem := List.mem_of_find?_eq_some hf
    have hex_id : (existing.chunk.documentId == r.chunk.documentId) = true := by
      simpa using List.find?_some hf
    by_cases hlt : existing.score < r.score
    · rw [dedupStep_find_replace hf hlt]
      by_cases hbid : b.chunk.documentId = r.chunk.documentId
      · have hbex : b = existing :=
          nodup_same_doc h hb hex_mem (by rw [hbid, beq_iff_eq.mp hex_id])
        refine ⟨r, List.mem_map.mpr ⟨existing, hex_mem, by simp [hex_id]⟩, ?_, ?_⟩
        · rw [hbid]
        · rw [hbex]
          exact le_of_lt hlt
      · refine ⟨b, List.mem_map.mpr ⟨b, hb, ?_⟩, rfl, le_refl _⟩
        rw [if_neg]
        intro hc
        exact hbid (beq_iff_eq.mp hc)
    · rw [dedupStep_find_keep hf hlt]
      exact ⟨b, hb, rfl, le_refl _⟩

theorem dedupStep_dominates_r {acc : List VectorSearchResult}
    {r : VectorSearchResult} :
    ∃ c ∈ dedupStep acc r,
      c.chunk.documentId = r.chunk.documentId ∧ r.score ≤ c.score := by
  rcases hf : acc.find? (fun a => a.chunk.documentId == r.chunk.documentId)
      with _ | existing
  · rw [dedupStep_find_none hf]
    exact ⟨r, List.mem_append.mpr (Or.inr (by simp)), rfl, le_refl _⟩
  · have hex_mem := List.mem_of_find?_eq_some hf
    have hex_id : (existing.chunk.documentId == r.chunk.documentId) = true := by
      simpa using List.find?_some hf
    by_cases hlt : existing.score < r.score
    · rw [dedupStep_find_replace hf hlt]
      exact ⟨r, List.mem_map.mpr ⟨existing, hex_mem, by simp [hex_id]⟩,
        rfl, le_refl _⟩
    · rw [dedupStep_find_keep hf hlt]
      exact ⟨existing, hex_mem, beq_iff_eq.mp hex_id, le_of_not_lt hlt⟩

theorem dedupStep_acc_max {acc : List VectorSearchResult}
    {r : VectorSearchResult} (h : (acc.map (·.chunk.documentId)).Nodup) :
    ∀ x ∈ dedupStep acc r, ∀ b ∈ acc,
      b.chunk.documentId = x.chunk.documentId → b.score ≤ x.score := by
  intro x hx b hb hbid
  rcases hf : acc.find? (fun a => a.chunk.documentId == r.chunk.documentId)
      with _ | existing
  · rw [dedupStep_find_none hf] at hx
    rcases List.mem_append.mp hx with hxa | hxr
    · rw [nodup_same_doc h hb hxa hbid]
    · rw [List.mem_singleton] at hxr
      subst hxr
      have := List.find?_eq_none.mp hf b hb
      rw [hbid] at this
      simp at this
  · have hex_mem := List.mem_of_find?_eq_some hf
    have hex_id : (existing.chunk.documentId == r.chunk.documentId) = true := by
      simpa using List.find?_some hf
    by_cases hlt : existing.score < r.score
    · rw [dedupStep_find_replace hf hlt] at hx
      rw [List.mem_map] at hx
      obtain ⟨a, ha, he⟩ := hx
      split at he
      · subst he
        have hbex : b = existing := nodup_same_doc h hb hex_mem
          (by rw [hbid, beq_iff_eq.mp hex_id])
        rw [hbex]
        exact le_of_lt hlt
      · subst he
        rw [nodup_same_doc h hb ha hbid]
    · rw [dedupStep_find_keep hf hlt] at hx
      rw [nodup_same_doc h hb hx hbid]

theorem dedupFold_max (l : List VectorSearchResult) :
    ∀ (acc : List VectorSearchResult),
      (acc.map (·.chunk.documentId)).Nodup →
      ((l.foldl dedupStep acc).map (·.chunk.documentId)).Nodup
      ∧ (∀ x ∈ l.foldl dedupStep acc, x ∈ acc ∨ x ∈ l)
      ∧ (∀ x ∈ l.foldl dedupStep acc, ∀ b ∈ acc,
          b.chunk.documentId = x.chunk.documentId → b.score ≤ x.score)
      ∧ (∀ x ∈ l.foldl dedupStep acc, ∀ r ∈ l,
          r.chunk.documentId = x.chunk.documentId → r.score ≤ x.score) := by
  induction l with
  | nil =>
    intro acc hacc
    exact ⟨hacc, fun x hx => Or.inl hx,
      fun x hx b hb hbid => by rw [nodup_same_doc hacc hb hx hbid],
      fun x _ r hr => by simp at hr⟩
  | cons r t ih =>
    intro acc hacc
    rw [List.foldl_cons]
    obtain ⟨ih1, ih2, ih3, ih4⟩ := ih (dedupStep acc r) (dedupStep_docIds_nodup hacc)
    refine ⟨ih1, ?_, ?_, ?_⟩
    · intro x hx
      rcases ih2 x hx with h | h
      · rcases dedupStep_mem_decomp h with h' | h'
        · exact Or.inl h'
        · exact Or.inr (by simp [h'])
      · exact Or.inr (by simp [h])
    · intro x hx b hb hbid
      obtain ⟨c, hc, hcid, hbc⟩ := dedupStep_dominates_acc hacc b hb
      exact le_trans hbc (ih3 x hx c hc (by rw [hcid, hbid]))
    · intro x hx r' hr' hrid
      rcases List.mem_cons.mp hr' with rfl | hrt
      · obtain ⟨c, hc, hcid, hrc⟩ := @dedupStep_dominates_r acc r'
        exact le_trans hrc (ih3 x hx c hc (by rw [hcid, hrid]))
      · exact ih4 x hx r' hrt hrid

end KnowledgeSearchTool

/-- C8: on any list of permission-accessible results, the knowledge_search
selection contains at most topK sources, at most one source per
documentId — each being a highest-scoring chunk of its document among the
accessible results — and lists the sources in non-increasing score
order. -/
theorem knowledge_search_topk_dedup (topK : Nat)
    (results : List KnowledgeSearchTool.VectorSearchResult) :
    (KnowledgeSearchTool.finalResults topK results).length ≤ topK
    ∧ ((KnowledgeSearchTool.finalResults topK results).map
        (·.chunk.documentId)).Nodup
    ∧ (∀ x ∈ KnowledgeSearchTool.finalResults topK results, x ∈ results
        ∧ ∀ r ∈ results, r.chunk.documentId = x.chunk.documentId →
          r.score ≤ x.score)
    ∧ (KnowledgeSearchTool.finalResults topK results).Sorted
        KnowledgeSearchTool.scoreDescRel := by
  obtain ⟨hnodup, hmem, _, hmax⟩ :=
    KnowledgeSearchTool.dedupFold_max results [] List.Pairwise.nil
  have hperm := List.perm_insertionSort KnowledgeSearchTool.scoreDescRel
    (results.foldl KnowledgeSearchTool.dedupStep [])
  have hsorted := List.sorted_insertionSort KnowledgeSearchTool.scoreDescRel
    (results.foldl KnowledgeSearchTool.dedupStep [])
  unfold KnowledgeSearchTool.finalResults KnowledgeSearchTool.deduplicateByDocument
  refine ⟨?_, ?_, ?_, ?_⟩
  · rw [List.length_take]
    exact Nat.min_le_left _ _
  · have hs := ((hperm.map (·.chunk.documentId)).nodup_iff).mpr hnodup
    rw [List.map_take]
    exact List.Pairwise.sublist (List.take_sublist _ _) hs
  · intro x hx
    have hx' : x ∈ List.insertionSort KnowledgeSearchTool.scoreDescRel
        (results.foldl KnowledgeSearchTool.dedupStep []) :=
      (List.take_sublist _ _).subset hx
    have hxd : x ∈ results.foldl KnowledgeSearchTool.dedupStep [] :=
      hperm.subset hx'
    refine ⟨?_, fun r hr hrid => hmax x hxd r hr hrid⟩
    rcases hmem x hxd with h | h
    · simp at h
    · exact h
  · exact List.Pairwise.sublist (List.take_sublist _ _) hsorted

/-- Witness for C8: on two hits of the same document (scores 7/10 then
9/10), the selected source dominates every same-document hit. -/
theorem finalResults_witness_mem :
    resultW1 ∈ KnowledgeSearchTool.finalResults 1 [resultW3, resultW1] := by
  have h3 : KnowledgeSearchTool.dedupStep [] resultW3 = [resultW3] := by
    rw [KnowledgeSearchTool.dedupStep_find_none (by rfl)]
    simp
  have h4 : ([resultW3].find?
      (fun a => a.chunk.documentId == resultW1.chunk.documentId))
      = some resultW3 := rfl
  have h5 : resultW3.score < resultW1.score := by
    norm_num [resultW1, resultW3, mkChunk]
  unfold KnowledgeSearchTool.finalResults KnowledgeSearchTool.deduplicateByDocument
  rw [List.foldl_cons, List.foldl_cons, List.foldl_nil, h3]
  rw [KnowledgeSearchTool.dedupStep_find_replace h4 h5]
  simp [List.insertionSort, List.orderedInsert, resultW1, resultW3, mkChunk]

theorem knowledge_search_topk_dedup_witness :
    resultW1 ∈ [resultW3, resultW1]
    ∧ ∀ r ∈ [resultW3, resultW1],
        r.chunk.documentId = resultW1.chunk.documentId →
        r.score ≤ resultW1.score :=
  (knowledge_search_topk_dedup 1 [resultW3, resultW1]).2.2.1 resultW1
    finalResults_witness_mem

/-! ### Pipeline error isolation (C5) -/

namespace ChunkingService

theorem chunkLoop_indexes (text : List Char) (cs co mcs : Nat) :
    ∀ (fuel cur idx : Nat) (l : List TextChunk),
      chunkLoop text cs co mcs fuel cur idx = some l →
      (∀ j ∈ l.map (·.index), idx ≤ j) ∧ (l.map (·.index)).Chain' (· < ·) := by
  intro fuel
  induction fuel with
  | zero =>
    intro cur idx l h
    simp [chunkLoop] at h
  | succ fuel ih =>
    intro cur idx l h
    rw [KnowledgeAgent.chunkLoop_succ] at h
    by_cases hcur : cur < text.length
    · rw [if_pos hcur] at h
      by_cases hend : text.length ≤ chunkEnd text cur cs
      · rw [if_pos hend] at h
        injection h with h'
        by_cases hemit : mcs ≤ (trimChars (jsSlice text cur (chunkEnd text cur cs))).length
        · rw [if_pos hemit] at h'
          subst h'
          exact ⟨by simp, by simp⟩
        · rw [if_neg hemit] at h'
          subst h'
          exact ⟨by simp, by simp⟩
      · rw [if_neg hend] at h
        by_cases hemit : mcs ≤ (trimChars (jsSlice text cur (chunkEnd text cur cs))).length
        · rw [if_pos hemit] at h
          rcases hloop : chunkLoop text cs co mcs fuel
              (nextCursor text cur (chunkEnd text cur cs) co) (idx + 1)
              with _ | tl
          · rw [hloop] at h
            simp at h
          · rw [hloop] at h
            injection h with h'
            rw [if_pos hemit] at h'
            subst h'
            obtain ⟨ih1, ih2⟩ := ih _ _ _ hloop
            constructor
            · intro j hj
              rw [List.map_cons, List.mem_cons] at hj
              rcases hj with rfl | hj'
              · exact Nat.le_refl _
              · have := ih1 j hj'
                omega
            · rw [List.map_cons]
              rw [List.chain'_cons']
              refine ⟨fun b hb => ?_, ih2⟩
              have hbmem := List.mem_of_mem_head? hb
              have hb1 := ih1 b hbmem
              show idx < b
              omega
        · rw [if_neg hemit] at h
          rcases hloop : chunkLoop text cs co mcs fuel
              (nextCursor text cur (chunkEnd text cur cs) co) idx
              with _ | tl
          · rw [hloop] at h
            simp at h
          · rw [hloop] at h
            injection h with h'
            rw [if_neg hemit] at h'
            subst h'
            exact ih _ _ _ hloop
    · rw [if_neg hcur] at h
      injection h with h'
      subst h'
      exact ⟨by simp, by simp⟩

theorem chunkText_indexes_nodup (text : List Char) (opts : ChunkOptions) :
    ((chunkText text opts).map (·.index)).Nodup := by
  unfold chunkText
  split
  · split
    · simp
    · simp
  · rcases h : chunkLoop text opts.chunkSize opts.chunkOverlap
        opts.minChunkSize (text.length + 1) 0 0 with _ | l
    · simp
    · simp only [Option.getD_some]
      have hchain := (chunkLoop_indexes text opts.chunkSize opts.chunkOverlap
        opts.minChunkSize (text.length + 1) 0 0 l h).2
      rw [List.chain'_iff_pairwise] at hchain
      exact hchain.imp (fun hlt => Nat.ne_of_lt hlt)

theorem chunkText_length_pos {text : List Char} {opts : ChunkOptions}
    (h : (chunkText text opts).isEmpty = false) :
    0 < (chunkText text opts).length := by
  rcases hl : chunkText text opts with _ | _
  · rw [hl] at h
    simp at h
  · simp

end ChunkingService

namespace KnowledgeIndexerService

open VectorStoreService

theorem buildDocumentChunks_ok (doc : KnowledgeDocument) (now : Nat) :
    ∀ (tcs : List ChunkingService.TextChunk) (embs : List (List ℚ)),
      tcs.length ≤ embs.length →
      ∃ dcs, buildDocumentChunks doc now tcs embs = .ok dcs
        ∧ dcs.length = tcs.length
        ∧ (∀ c ∈ dcs, c.documentId = doc.id)
        ∧ dcs.map (·.id) =
            tcs.map (fun tc => generateChunkId doc.id tc.index) := by
  intro tcs
  induction tcs with
  | nil => intro embs _; exact ⟨[], rfl, rfl, by simp, by simp⟩
  | cons tc tcs ih =>
    intro embs hlen
    rcases embs with _ | ⟨e, es⟩
    · simp at hlen
    · obtain ⟨dcs, hok, hl, hdoc, hids⟩ := ih es (by simpa using hlen)
      refine ⟨{ id := generateChunkId doc.id tc.index
                documentId := doc.id
                driveId := doc.driveId
                webUrl := doc.webUrl
                siteUrl := doc.siteUrl
                siteName := doc.siteName
                documentTitle := doc.title
                fileType := doc.fileType
                chunkIndex := tc.index
                chunkText := tc.text
                embedding := e
                documentModifiedAt := doc.lastModified
                indexedAt := now } :: dcs, ?_, by simp [hl], ?_, by simp [hids]⟩
      · show (buildDocumentChunks doc now tcs es).map _ = _
        rw [hok]
        rfl
      · intro c hc
        rcases List.mem_cons.mp hc with rfl | hc'
        · rfl
        · exact hdoc c hc'

theorem processDocument_error {extract : KnowledgeDocument → Except String (List Char)}
    {embed : List (List Char) → Except String (List (List ℚ))}
    {skip : Bool} {now : Nat} {st : List DocumentChunk}
    {doc : KnowledgeDocument} {e : String} (hex : extract doc = .error e) :
    processDocument extract embed skip now st doc = .error e := by
  unfold processDocument
  rw [hex]

theorem processDocument_ok {extract : KnowledgeDocument → Except String (List Char)}
    {embed : List (List Char) → Except String (List (List ℚ))}
    {now : Nat} {st : List DocumentChunk} {doc : KnowledgeDocument}
    {content : List Char}
    (hex : extract doc = .ok content)
    (hlen : ¬ content.length < 50)
    (htc : (ChunkingService.chunkText content {}).isEmpty = false)
    {embs : List (List ℚ)}
    (hembed : embed ((ChunkingService.chunkText content {}).map (·.text)) = .ok embs)
    {dcs : List DocumentChunk}
    (hbuild : buildDocumentChunks doc now
      (ChunkingService.chunkText content {}) embs = .ok dcs) :
    processDocument extract embed false now st doc =
      .ok (dcs.length, (processDocumentStore st doc.id dcs).1,
        (processDocumentStore st doc.id dcs).2) := by
  unfold processDocument
  rw [hex]
  dsimp only
  rw [if_neg hlen]
  rw [htc]
  rw [if_neg (by simp)]
  rw [if_neg (by simp)]
  rw [hembed]
  dsimp only
  rw [hbuild]

end KnowledgeIndexerService

open KnowledgeIndexerService VectorStoreService in
/-- C5: on a two-document corpus where content extraction throws for the
first document and the second document extracts, chunks, and embeds
normally, the pipeline result has documentsFound = 2,
documentsProcessed = 1, and exactly one error whose message contains the
first document's title, while the second document's chunks are all stored
(the index becomes the delete-then-upsert of the second document's
chunks). -/
theorem pipeline_error_isolation
    (extract : KnowledgeDocument → Except String (List Char))
    (embed : List (List Char) → Except String (List (List ℚ)))
    (d1 d2 : KnowledgeDocument) (st0 : List DocumentChunk) (now : Nat)
    (e1 : String) (c2 : List Char) (embs : List (List ℚ))
    (h1 : extract d1 = .error e1)
    (h2 : extract d2 = .ok c2)
    (hlen : ¬ c2.length < 50)
    (htc : (ChunkingService.chunkText c2 {}).isEmpty = false)
    (hembed : embed ((ChunkingService.chunkText c2 {}).map (·.text)) = .ok embs)
    (hel : (ChunkingService.chunkText c2 {}).length ≤ embs.length) :
    ∃ dcs, buildDocumentChunks d2 now (ChunkingService.chunkText c2 {}) embs = .ok dcs
      ∧ runIndexingPipeline extract embed false now [d1, d2] st0 =
        ({ documentsFound := 2, documentsProcessed := 1,
           chunksCreated := (ChunkingService.chunkText c2 {}).length,
           errors := ["Failed to process " ++ d1.title ++ ": " ++ e1],
           durationMs := 0 },
         (processDocumentStore st0 d2.id dcs).1)
      ∧ (∃ pre post,
          "Failed to process " ++ d1.title ++ ": " ++ e1 = pre ++ d1.title ++ post)
      ∧ 0 < (ChunkingService.chunkText c2 {}).length
      ∧ (∀ c ∈ dcs, c ∈ (processDocumentStore st0 d2.id dcs).1) := by
  obtain ⟨dcs, hbuild, hdlen, hddoc, hdids⟩ :=
    buildDocumentChunks_ok d2 now (ChunkingService.chunkText c2 {}) embs hel
  have hpos := ChunkingService.chunkText_length_pos htc
  have hnodup_new : (dcs.map (·.id)).Nodup := by
    rw [hdids]
    have hidx := ChunkingService.chunkText_indexes_nodup c2 {}
    rw [show ((ChunkingService.chunkText c2 {}).map
        (fun tc => generateChunkId d2.id tc.index))
      = (((ChunkingService.chunkText c2 {}).map (·.index)).map
          (generateChunkId d2.id)) by rw [List.map_map]; rfl]
    refine List.Nodup.map ?_ hidx
    intro i j hij
    exact (generateChunkId_parts hij).2
  refine ⟨dcs, hbuild, ?_, ⟨"Failed to process ", ": " ++ e1, by
    rw [String.append_assoc]⟩, hpos, ?_⟩
  · unfold runIndexingPipeline
    rw [if_neg (by simp)]
    rw [List.foldl_cons, List.foldl_cons, List.foldl_nil]
    unfold pipelineStep
    rw [processDocument_error h1]
    dsimp only
    rw [processDocument_ok h2 hlen htc hembed hbuild]
    dsimp only
    rw [if_pos (show 0 < dcs.length by rw [hdlen]; exact hpos)]
    dsimp only
    rw [hdlen]
    simp
  · intro c hc
    rw [processDocumentStore_fst]
    exact upsertChunks_mem_of_mem hnodup_new c hc

/-- Witness for C5: a concrete two-document corpus whose first document's
extraction throws; the pipeline reports 2 found, 1 processed, 1 error. -/
theorem pipeline_error_isolation_witness :
    (KnowledgeIndexerService.runIndexingPipeline extractW embedW false 0
        [docW "1" "First Doc", docW "2" "Second Doc"] []).1.documentsFound = 2
    ∧ (KnowledgeIndexerService.runIndexingPipeline extractW embedW false 0
        [docW "1" "First Doc", docW "2" "Second Doc"] []).1.documentsProcessed = 1
    ∧ (KnowledgeIndexerService.runIndexingPipeline extractW embedW false 0
        [docW "1" "First Doc", docW "2" "Second Doc"] []).1.errors.length = 1 := by
  obtain ⟨dcs, hbuild, heq, hmention, hpos, hmem⟩ :=
    pipeline_error_isolation extractW embedW
      (docW "1" "First Doc") (docW "2" "Second Doc") [] 0 "Unknown error"
      (List.replicate 200 'a')
      (((ChunkingService.chunkText (List.replicate 200 'a') {}).map
        (·.text)).map (fun _ => ([] : List ℚ)))
      rfl rfl (by decide) (by decide) rfl (by simp)
  rw [heq]
  exact ⟨rfl, rfl, rfl⟩

end KnowledgeAgent
